import Mathlib

/-!
Verification development for the Audio-Marker application (a client-side
audio annotation tool).  The definitions below are a shallow embedding of
the program's data model and of the operations the specification speaks
about: the CSV marker codec (`exportMarkersCsv`, `importMarkers`), the
Premiere timecode export (`secondsToTimecode`), the marker list engine
(`processedMarkers`), marker creation (`addMarker`), category management
(`handleAddType`, `handleUpdateTypeName`, `handleImportFile`,
`handleUpdateAssetTypes`) and start-up storage loading (`initSlot`).

Modelling conventions:
* text is represented as `List Char` (`Str`); JavaScript string operations
  (`split`, `join`, `trim`, `startsWith`/`endsWith`, `substring`,
  `replace`) are embedded as recursive functions on character lists;
* JavaScript numbers are represented as `ℚ` (exact arithmetic); every
  IEEE-754 double is a finite decimal and hence a rational, and all the
  arithmetic the program performs on the values the claims quantify over
  is exact, so no rounding behaviour is lost on those inputs;
* `Number`-to-string conversion is embedded by `ratToStr`, which prints
  the exact finite-decimal expansion, and `parseFloat` by `jsParseFloat`
  (decimal prefix parsing with optional exponent; the exotic
  `parseFloat` inputs `Infinity` and `-Infinity` are not representable
  in `ℚ` and are not modelled — no claim depends on them);
* `Array.prototype.sort` with a consistent comparator is a stable sort,
  and a stable sort's output is uniquely determined by the comparator,
  so it is embedded as `List.insertionSort` (Mathlib's stable sort) over
  the relation `comparator a b ≤ 0`;
* React state updates become explicit state passing: a handler that
  either replaces a collection or leaves it unchanged (showing an alert)
  returns `Option`/`Except`.
-/

namespace AudioMarker

/-- Text is modelled as a list of characters. -/
abbrev Str := List Char

/-- The whitespace class used by JavaScript `trim` / `\s` (ASCII part;
the program's data never contains the exotic Unicode space characters). -/
def isWS (c : Char) : Bool :=
  c = ' ' || c = '\t' || c = '\n' || c = '\r' || c = '\x0b' || c = '\x0c'

/-- JavaScript `String.prototype.trim`: strip whitespace from both ends. -/
def jsTrim (s : Str) : Str :=
  ((s.dropWhile isWS).reverse.dropWhile isWS).reverse

/-- `!line.trim()`: the line is blank (empty after trimming). -/
def isBlank (l : Str) : Bool := jsTrim l = []

/-- JavaScript `String.prototype.split` with a one-character separator:
always returns a non-empty list of chunks (every separator occurrence
opens a new chunk, other characters extend the first chunk). -/
def splitChar (c : Char) : Str → List Str
  | [] => [[]]
  | a :: rest =>
    let r := splitChar c rest
    if a = c then [] :: r else (a :: r.headD []) :: r.tail

/-- JavaScript `Array.prototype.join` with a separator string. -/
def joinSep (sep : Str) : List Str → Str
  | [] => []
  | [x] => x
  | x :: y :: rest => x ++ sep ++ joinSep sep (y :: rest)

/-- Drop one trailing carriage return, if present. -/
def stripTrailCR (l : Str) : Str :=
  match l.getLast? with
  | some c => if c = '\r' then l.dropLast else l
  | none => l

/-- JavaScript `text.split(/\r?\n/)`: split at every newline, and a
carriage return immediately before a newline is consumed with it (a
carriage return anywhere else, including at the end of the text, stays). -/
def splitLines (text : Str) : List Str :=
  let parts := splitChar '\n' text
  (parts.dropLast.map stripTrailCR) ++ [parts.getLastD []]

/-- The decimal digit character for `d < 10`. -/
def digitChar (d : Nat) : Char := Char.ofNat (48 + d)

/-- Fuel-driven digit extraction (structural recursion so that concrete
values reduce inside the kernel); `natDigits` supplies enough fuel. -/
def natDigitsAux : Nat → Nat → Str
  | 0, _ => []
  | fuel + 1, n =>
    if n < 10 then [digitChar n]
    else natDigitsAux fuel (n / 10) ++ [digitChar (n % 10)]

/-- The decimal digit string of a natural number (JavaScript
`String(n)` for a non-negative integer-valued number). -/
def natDigits (n : Nat) : Str := natDigitsAux (n + 1) n

/-- Numeric value of a digit string (most significant first). -/
def digitsToNat (l : Str) : Nat :=
  l.foldl (fun a c => 10 * a + (c.toNat - 48)) 0

/-- Left-pad a digit string with zeros to width `k`. -/
def padZeros (k : Nat) (l : Str) : Str :=
  List.replicate (k - l.length) '0' ++ l

/-- Fuel-driven factor counting (structural recursion so that concrete
values reduce inside the kernel); `countFac` supplies enough fuel. -/
def countFacAux : Nat → Nat → Nat → Nat
  | 0, _, _ => 0
  | fuel + 1, p, n =>
    if 2 ≤ p ∧ 2 ≤ n ∧ p ∣ n then 1 + countFacAux fuel p (n / p) else 0

/-- Multiplicity of the factor `p` in `n` (for `p ≥ 2`). -/
def countFac (p n : Nat) : Nat := countFacAux (n + 1) p n

/-- Number of decimal fraction digits needed for a rational whose
denominator is of the form `2^a * 5^b`. -/
def decExp (q : ℚ) : Nat := max (countFac 2 q.den) (countFac 5 q.den)

/-- The rational is a finite decimal — true of every IEEE-754 double,
hence of every JavaScript number the program stores. -/
def IsFiniteDecimal (q : ℚ) : Prop := q.den ∣ 10 ^ decExp q

instance (q : ℚ) : Decidable (IsFiniteDecimal q) := by
  unfold IsFiniteDecimal; infer_instance

/-- Decimal expansion of a non-negative finite-decimal rational, without
trailing fraction zeros — the string JavaScript number-to-string
conversion produces for such a value. -/
def nnRatToStr (q : ℚ) : Str :=
  let k := decExp q
  let scaled := q.num.toNat * 10 ^ k / q.den
  if k = 0 then natDigits scaled
  else natDigits (scaled / 10 ^ k) ++ '.' :: padZeros k (natDigits (scaled % 10 ^ k))

/-- JavaScript number-to-string conversion, on finite decimals. -/
def ratToStr (q : ℚ) : Str :=
  if q < 0 then '-' :: nnRatToStr (-q) else nnRatToStr q

/-- Exponent part of `parseFloat`: an optional sign and digits after
`e`/`E`; an incomplete exponent is ignored (contributes 0). -/
def parseExp (s : Str) : Int :=
  let sgn : Int := if s.headD ' ' = '-' then -1 else 1
  let s1 := if s.headD ' ' = '+' ∨ s.headD ' ' = '-' then s.tail else s
  let d := s1.takeWhile Char.isDigit
  if d = [] then 0 else sgn * digitsToNat d

/-- `parseFloat` after the optional leading sign: longest prefix of the
form `digits [. digits] [e|E [sign] digits]`; `none` when there is no
digit at all (JavaScript `NaN`). -/
def parseUnsigned (s : Str) : Option ℚ :=
  let intd := s.takeWhile Char.isDigit
  let r1 := s.dropWhile Char.isDigit
  let fracd := if r1.headD ' ' = '.' then r1.tail.takeWhile Char.isDigit else []
  let r2 := if r1.headD ' ' = '.' then r1.tail.dropWhile Char.isDigit else r1
  if intd = [] ∧ fracd = [] then none
  else
    let mant : ℚ := (digitsToNat intd : ℚ) + (digitsToNat fracd : ℚ) / (10 : ℚ) ^ fracd.length
    let e : Int := if r2.headD ' ' = 'e' ∨ r2.headD ' ' = 'E' then parseExp r2.tail else 0
    some (mant * (10 : ℚ) ^ e)

/-- JavaScript `parseFloat`: skip leading whitespace, optional sign,
then the longest decimal-number prefix; `none` models `NaN`. -/
def jsParseFloat (s : Str) : Option ℚ :=
  match s.dropWhile isWS with
  | [] => none
  | a :: r =>
    if a = '+' then parseUnsigned r
    else if a = '-' then (parseUnsigned r).map (fun q => -q)
    else parseUnsigned (a :: r)

/-- `context.replace(/"/g, '""')`: double every double-quote character. -/
def escQ : Str → Str
  | [] => []
  | a :: r => if a = '"' then '"' :: '"' :: escQ r else a :: escQ r

/-- `replace(/""/g, '"')`: collapse doubled double-quote characters,
scanning left to right. -/
def unescQ : Str → Str
  | [] => []
  | [a] => [a]
  | a :: b :: r =>
    if a = '"' && b = '"' then '"' :: unescQ r else a :: unescQ (b :: r)

/-- The importer's quote stripping: if the reassembled context starts and
ends with a double quote, take `substring(1, length - 1)` (for the
one-character string `"` JavaScript's `substring` swaps its arguments and
returns the string itself) and collapse doubled quotes. -/
def stripQuotes (s : Str) : Str :=
  if s.headD ' ' = '"' && s.getLastD ' ' = '"' then
    unescQ (if s.length = 1 then s else (s.drop 1).dropLast)
  else s

/-! ### Data model (types.ts) -/

/-- `AssetStatus` enum. -/
inductive AssetStatus
  | Done
  | InProgress
  | ToDo
deriving DecidableEq, Repr

/-- The string value of each `AssetStatus` member. -/
def AssetStatus.str : AssetStatus → Str
  | .Done => "Done".data
  | .InProgress => "In Progress".data
  | .ToDo => "To Do".data

/-- `Object.values(AssetStatus).includes(status)`, returning the matching
member: exact string match against the three enum values. -/
def parseStatus (s : Str) : Option AssetStatus :=
  if s = "Done".data then some .Done
  else if s = "In Progress".data then some .InProgress
  else if s = "To Do".data then some .ToDo
  else none

/-- `Marker` record. -/
structure Marker where
  id : Str
  timestamp : ℚ
  context : Str
  type : Str
  status : AssetStatus
deriving DecidableEq, Repr

/-- The content of a marker, identifier excepted: the quadruple
(timestamp, context, type, status). -/
def Marker.content (m : Marker) : ℚ × Str × Str × AssetStatus :=
  (m.timestamp, m.context, m.type, m.status)

/-- `CustomAssetType` record. -/
structure CustomAssetType where
  id : Str
  name : Str
  color : Str
deriving DecidableEq, Repr

/-- `Project` record (the transient `audioUrl` handle is stripped before
persisting and is irrelevant to every claim, so it is not modelled). -/
structure Project where
  id : Str
  title : Str
  audioFileName : Str
  duration : ℚ
  markers : List Marker
deriving DecidableEq, Repr

/-! ### Built-in defaults (constants.tsx) -/

/-- `DEFAULT_ASSET_TYPES`. -/
def DEFAULT_ASSET_TYPES : List CustomAssetType :=
  [ ⟨"type_1".data, "Image".data, "bg-red-500".data⟩,
    ⟨"type_2".data, "Video".data, "bg-purple-500".data⟩,
    ⟨"type_3".data, "Motion Graphics".data, "bg-teal-500".data⟩ ]

/-- `DUMMY_MARKERS_1`. -/
def DUMMY_MARKERS_1 : List Marker :=
  [ ⟨"m1".data, 5, "Opening shot, wide angle".data, "Image".data, .Done⟩,
    ⟨"m2".data, 15, "Interview clip with subject A".data, "Video".data, .Done⟩,
    ⟨"m3".data, 28, "Lower third for subject A".data, "Motion Graphics".data, .InProgress⟩,
    ⟨"m4".data, 45, "B-roll footage of city".data, "Video".data, .Done⟩,
    ⟨"m5".data, 63, "Archival photo of event".data, "Image".data, .ToDo⟩ ]

/-- `DUMMY_MARKERS_2`. -/
def DUMMY_MARKERS_2 : List Marker :=
  [ ⟨"m6".data, 12, "Intro graphics sequence".data, "Motion Graphics".data, .Done⟩,
    ⟨"m7".data, 33, "Close-up shot of hands working".data, "Image".data, .InProgress⟩ ]

/-- `DUMMY_PROJECTS`. -/
def DUMMY_PROJECTS : List Project :=
  [ ⟨"proj_1".data, "The Mountain Story".data, "mountain_story_vo.mp3".data, 245,
      DUMMY_MARKERS_1⟩,
    ⟨"proj_2".data, "Urban Jungle".data, "urban_jungle_mix.mp3".data, 188,
      DUMMY_MARKERS_2⟩,
    ⟨"proj_3".data, "Ocean Deep".data, "ocean_deep_sfx.mp3".data, 320, []⟩,
    ⟨"proj_4".data, "A Creator's Journey".data, "creators_podcast.wav".data, 150,
      DUMMY_MARKERS_1.take 2⟩ ]

/-! ### Timestamp-ordering relation used by the `(a, b) => a.timestamp - b.timestamp`
comparators of `addMarker` and the CSV importer -/

/-- `a.timestamp - b.timestamp ≤ 0`: the comparator relation of the
timestamp sorts. -/
def tsLe (a b : Marker) : Prop := a.timestamp ≤ b.timestamp

instance : DecidableRel tsLe :=
  fun a b => inferInstanceAs (Decidable (a.timestamp ≤ b.timestamp))

/-! ### CSV marker codec (ProjectEditorPage.tsx) -/

/-- The export header row. -/
def csvHeader : Str := "timestamp,context,type,status".data

/-- The always-quoted context field:
"`${marker.context.replace(/"/g, '""')}`" wrapped in double quotes. -/
def quoteCtx (c : Str) : Str := '"' :: escQ c ++ ['"']

/-- One data row of `handleExportMarkers`:
`[marker.timestamp, escapedContext, marker.type, marker.status].join(',')`. -/
def markerLine (m : Marker) : Str :=
  joinSep [','] [ratToStr m.timestamp, quoteCtx m.context, m.type, m.status.str]

/-- The CSV text `handleExportMarkers` produces:
`[header.join(','), ...rows].join('\n')`. -/
def exportMarkersCsv (markers : List Marker) : Str :=
  joinSep ['\n'] (csvHeader :: markers.map markerLine)

/-- `handleExportMarkers` itself: with no markers an alert is shown and
nothing is exported (`none`); otherwise the CSV text is produced. -/
def handleExportMarkers (proj : Project) : Option Str :=
  if proj.markers.length = 0 then none else some (exportMarkersCsv proj.markers)

/-- A parsed CSV data row, before an identifier is attached. -/
structure Row where
  timestamp : ℚ
  context : Str
  type : Str
  status : AssetStatus
deriving DecidableEq, Repr

/-- Error message `Invalid CSV format on line ${index + 2}: Not enough columns.` -/
def errNotEnough (idx : Nat) : Str :=
  "Invalid CSV format on line ".data ++ natDigits (idx + 2) ++ ": Not enough columns.".data

/-- Error message `Invalid timestamp on line ${index + 2}: '${timestampStr}'` -/
def errTimestamp (idx : Nat) (ts : Str) : Str :=
  "Invalid timestamp on line ".data ++ natDigits (idx + 2) ++ ": '".data ++ ts ++ "'".data

/-- Error message listing the valid category names:
`Invalid asset type on line ${index + 2}: '${type}'. Must be one of [${validTypes.join(', ')}]` -/
def errType (idx : Nat) (ty : Str) (validTypes : List Str) : Str :=
  "Invalid asset type on line ".data ++ natDigits (idx + 2) ++ ": '".data ++ ty
    ++ "'. Must be one of [".data ++ joinSep ", ".data validTypes ++ "]".data

/-- Error message `Invalid status on line ${index + 2}: '${status}'` -/
def errStatus (idx : Nat) (st : Str) : Str :=
  "Invalid status on line ".data ++ natDigits (idx + 2) ++ ": '".data ++ st ++ "'".data

/-- One non-blank line of the import loop body of `handleMarkersFileChange`:
split on commas, require at least 4 parts, first part is the timestamp,
last is the status, second-to-last the type, everything between rejoined
with commas is the context (quote-stripped); validate timestamp, type
(against the current category names) and status. -/
def parseLine (validTypes : List Str) (idx : Nat) (line : Str) : Except Str Row :=
  let parts := splitChar ',' line
  if parts.length < 4 then .error (errNotEnough idx)
  else
    let timestampStr := parts.headD []
    let status := parts.getLastD []
    let ty := parts.dropLast.getLastD []
    let context := stripQuotes (joinSep [','] (((parts.drop 1).dropLast).dropLast))
    match jsParseFloat timestampStr with
    | none => .error (errTimestamp idx timestampStr)
    | some ts =>
      if ty ∉ validTypes then .error (errType idx ty validTypes)
      else
        match parseStatus status with
        | none => .error (errStatus idx status)
        | some st => .ok ⟨ts, context, ty, st⟩

/-- The identifier `marker_imported_${Date.now()}_${index}` (the clock
reading is passed in as `now`). -/
def importedId (now idx : Nat) : Str :=
  "marker_imported_".data ++ natDigits now ++ '_' :: natDigits idx

/-- Attach the generated identifier to a parsed row. -/
def rowToMarker (now idx : Nat) (r : Row) : Marker :=
  ⟨importedId now idx, r.timestamp, r.context, r.type, r.status⟩

/-- The `lines.forEach` loop: blank lines are skipped, the first invalid
line aborts the whole import with its error (the thrown exception), and
otherwise every line contributes one new marker. -/
def processLines (validTypes : List Str) (now : Nat) :
    Nat → List Str → Except Str (List Marker)
  | _, [] => .ok []
  | idx, l :: ls =>
    if isBlank l then processLines validTypes now (idx + 1) ls
    else
      match parseLine validTypes idx l with
      | .error e => .error e
      | .ok r =>
        match processLines validTypes now (idx + 1) ls with
        | .error e => .error e
        | .ok ms => .ok (rowToMarker now idx r :: ms)

/-- The whole import of `handleMarkersFileChange`: split into lines, skip
the header, process every data line, and sort the resulting collection by
timestamp ascending. -/
def importMarkers (validTypes : List Str) (now : Nat) (text : Str) :
    Except Str (List Marker) :=
  match processLines validTypes now 0 ((splitLines text).drop 1) with
  | .error e => .error e
  | .ok ms => .ok (List.insertionSort tsLe ms)

/-- The state effect of `handleMarkersFileChange`: on success the
project's marker collection is replaced in one update; on error an alert
is shown and the project is untouched. -/
def handleMarkersFileChange (validTypes : List Str) (now : Nat)
    (proj : Project) (text : Str) : Project :=
  match importMarkers validTypes now text with
  | .error _ => proj
  | .ok ms => { proj with markers := ms }

/-! ### Premiere timecode export (ProjectEditorPage.tsx, handleExportForPremiere) -/

/-- JavaScript `Math.round`: round half toward positive infinity. -/
def jsRound (q : ℚ) : Int := ⌊q + 1 / 2⌋

/-- JavaScript `Math.floor(a / b)` on integer-valued numbers: floor
division. -/
def jsFloorDiv (a b : Int) : Int := Int.fdiv a b

/-- JavaScript `%` on integer-valued numbers: remainder with the sign of
the dividend (truncated division). -/
def jsRem (a b : Int) : Int := Int.tmod a b

/-- JavaScript `String(v)` for an integer-valued number. -/
def intToStr (v : Int) : Str :=
  if v < 0 then '-' :: natDigits (-v).toNat else natDigits v.toNat

/-- `String(v).padStart(2, '0')`. -/
def padStart2 (s : Str) : Str :=
  if 2 ≤ s.length then s else List.replicate (2 - s.length) '0' ++ s

/-- `secondsToTimecode` of the Premiere export, at its default 30 fps:
`HH;MM;SS;FF` from `totalFrames = Math.round(timeInSeconds * frameRate)`. -/
def secondsToTimecode (timeInSeconds : ℚ) : Str :=
  let frameRate : Int := 30
  let totalFrames : Int := jsRound (timeInSeconds * 30)
  let hours := jsFloorDiv totalFrames (3600 * frameRate)
  let minutes := jsFloorDiv (jsRem totalFrames (3600 * frameRate)) (60 * frameRate)
  let seconds := jsFloorDiv (jsRem totalFrames (60 * frameRate)) frameRate
  let frames := jsRem totalFrames frameRate
  joinSep [';'] ([hours, minutes, seconds, frames].map (fun v => padStart2 (intToStr v)))

/-! ### Marker list engine (MarkersTable.tsx, processedMarkers) -/

/-- Three-way comparison of rationals, as the numeric branch of the sort
comparator computes it (`-1` / `1` / `0`). -/
def qCmp (a b : ℚ) : Int := if a < b then -1 else if b < a then 1 else 0

/-- `String.prototype.localeCompare`, modelled as code-point
lexicographic three-way comparison (the program's category names, enum
values and contexts are plain ASCII, where default collation and
code-point order agree on sign). -/
def strCmp : Str → Str → Int
  | [], [] => 0
  | [], _ :: _ => -1
  | _ :: _, [] => 1
  | a :: as_, b :: bs =>
    if a < b then -1 else if b < a then 1 else strCmp as_ bs

/-- `keyof Marker`: the sortable columns. -/
inductive SortKey
  | id
  | timestamp
  | context
  | type
  | status
deriving DecidableEq, Repr

/-- Sort direction. -/
inductive SortDir
  | asc
  | desc
deriving DecidableEq, Repr

/-- The comparator's ascending core: `localeCompare` on string-valued
fields (a marker's status is its enum string), three-way `<`/`>`
comparison on the numeric timestamp. -/
def markerCmp (key : SortKey) (a b : Marker) : Int :=
  match key with
  | .id => strCmp a.id b.id
  | .timestamp => qCmp a.timestamp b.timestamp
  | .context => strCmp a.context b.context
  | .type => strCmp a.type b.type
  | .status => strCmp a.status.str b.status.str

/-- The full comparator: descending order swaps the arguments (both the
`localeCompare` branch and the numeric branch of the source flip exactly
this way). -/
def sortCmp (key : SortKey) (dir : SortDir) (a b : Marker) : Int :=
  match dir with
  | .asc => markerCmp key a b
  | .desc => markerCmp key b a

/-- The sort relation `comparator a b ≤ 0` that the stable
`Array.prototype.sort` orders by. -/
def sortRel (key : SortKey) (dir : SortDir) (a b : Marker) : Prop :=
  sortCmp key dir a b ≤ 0

instance (key : SortKey) (dir : SortDir) : DecidableRel (sortRel key dir) :=
  fun a b => inferInstanceAs (Decidable (sortCmp key dir a b ≤ 0))

/-- The string value `'all'` of the two filter selects. -/
def allStr : Str := "all".data

/-- `processedMarkers`: copy the collection, filter by type (unless
`'all'`), then by status (unless `'all'`), then sort with the comparator
for the selected column and direction. -/
def processedMarkers (markers : List Marker) (ftype fstatus : Str)
    (key : SortKey) (dir : SortDir) : List Marker :=
  let l1 := if ftype = allStr then markers
            else markers.filter (fun m => m.type = ftype)
  let l2 := if fstatus = allStr then l1
            else l1.filter (fun m => m.status.str = fstatus)
  List.insertionSort (sortRel key dir) l2

/-! ### Marker creation (AudioEditor.tsx, addMarker) -/

/-- `addMarker`: with no asset types an alert is shown and nothing
changes (`none`); otherwise a marker is created at the current playback
time with the trimmed context (or the placeholder), status To Do and the
selected type, and the whole collection is re-sorted by timestamp. -/
def addMarker (assetTypes : List CustomAssetType) (markers : List Marker)
    (currentTime : ℚ) (newMarkerContext newMarkerType newId : Str) :
    Option (List Marker) :=
  if assetTypes.length = 0 then none
  else
    let ctx := if jsTrim newMarkerContext = [] then "New marker...".data
               else jsTrim newMarkerContext
    let newMarker : Marker := ⟨newId, currentTime, ctx, newMarkerType, .ToDo⟩
    some (List.insertionSort tsLe (markers ++ [newMarker]))

/-! ### Category management (SettingsPage.tsx, App.tsx) -/

/-- `toLowerCase` of a name (ASCII case folding; the default categories
and the collision examples are ASCII). -/
def lcStr (s : Str) : Str := s.map Char.toLower

/-- Case-insensitive uniqueness of the category names. -/
def namesCIUnique (types : List CustomAssetType) : Prop :=
  (types.map (fun t => lcStr t.name)).Nodup

instance (types : List CustomAssetType) : Decidable (namesCIUnique types) := by
  unfold namesCIUnique; infer_instance

/-- `handleAddType`: empty trimmed names and case-insensitive collisions
are rejected with an alert (`none`); otherwise the new type is appended. -/
def handleAddType (assetTypes : List CustomAssetType)
    (newTypeName newTypeColor newId : Str) : Option (List CustomAssetType) :=
  if jsTrim newTypeName = [] then none
  else if assetTypes.any (fun t => lcStr t.name = lcStr (jsTrim newTypeName)) then none
  else some (assetTypes ++ [⟨newId, jsTrim newTypeName, newTypeColor⟩])

/-- `handleUpdateType` for the `name` field: empty trimmed values are
ignored, a case-insensitive collision with another type is rejected with
an alert (both `none`, state unchanged); otherwise the matching type's
name becomes the trimmed value. -/
def handleUpdateTypeName (assetTypes : List CustomAssetType)
    (id value : Str) : Option (List CustomAssetType) :=
  if jsTrim value = [] then none
  else if assetTypes.any (fun t => t.id ≠ id ∧ lcStr t.name = lcStr (jsTrim value)) then none
  else some (assetTypes.map (fun t => if t.id = id then { t with name := jsTrim value } else t))

/-- The settings-import validation used both by `handleImportFile` and by
`App.handleUpdateAssetTypes`: every element has truthy (non-empty) id,
name and color. -/
def importedTypesValid (types : List CustomAssetType) : Bool :=
  types.all (fun t => !(t.id = []) && !(t.name = []) && !(t.color = []))

/-- `handleImportFile` after JSON parsing succeeded with an array of
`{id, name, color}` records: accept the whole array or reject the whole
file. -/
def handleImportFile (parsed : List CustomAssetType) :
    Option (List CustomAssetType) :=
  if importedTypesValid parsed then some parsed else none

/-- `App.handleUpdateAssetTypes`: replace the category collection when
the array passes the same validation, otherwise keep the current one. -/
def handleUpdateAssetTypes (current newTypes : List CustomAssetType) :
    List CustomAssetType :=
  if importedTypesValid newTypes then newTypes else current

/-! ### Start-up storage loading (App.tsx) -/

/-- One storage slot's initializer: `localStorage.getItem` returned
`stored`; a present, non-empty (truthy) text is parsed, and a parse
failure (the thrown exception is caught and logged) or absent text falls
back to the built-in default. `parse` stands for the host `JSON.parse`. -/
def initSlot {α : Type} (parse : Str → Option α) (stored : Option Str)
    (dflt : α) : α :=
  match stored with
  | none => dflt
  | some s => if s = [] then dflt else (parse s).getD dflt

/-- The `projects` slot: falls back to `DUMMY_PROJECTS`. -/
def loadProjects (parse : Str → Option (List Project)) (stored : Option Str) :
    List Project :=
  initSlot parse stored DUMMY_PROJECTS

/-- The `assetTypes` slot: falls back to `DEFAULT_ASSET_TYPES`. -/
def loadAssetTypes (parse : Str → Option (List CustomAssetType))
    (stored : Option Str) : List CustomAssetType :=
  initSlot parse stored DEFAULT_ASSET_TYPES

/-! ### Derived notions used to state the claims -/

/-- Replace a marker's identifier. -/
def setId (m : Marker) (i : Str) : Marker := { m with id := i }

/-- The markers the import loop builds from a marker list's own rows:
the same content, identifiers regenerated from the line index. -/
def reIds (now : Nat) : Nat → List Marker → List Marker
  | _, [] => []
  | idx, m :: rest => setId m (importedId now idx) :: reIds now (idx + 1) rest

/-- Timestamp order on marker contents. -/
def contentLe (x y : ℚ × Str × Str × AssetStatus) : Prop := x.1 ≤ y.1

instance : DecidableRel contentLe :=
  fun x y => inferInstanceAs (Decidable (x.1 ≤ y.1))

/-! ## Lemmas: splitting, joining and quoting -/

theorem splitChar_ne_nil (c : Char) (s : Str) : splitChar c s ≠ [] := by
  cases s with
  | nil => simp [splitChar]
  | cons a rest =>
    simp only [splitChar]
    split <;> simp

theorem splitChar_not_mem {c : Char} {s : Str} (h : c ∉ s) :
    splitChar c s = [s] := by
  induction s with
  | nil => rfl
  | cons a rest ih =>
    simp only [List.mem_cons, not_or] at h
    simp [splitChar, ih h.2, Ne.symm h.1]

theorem splitChar_cons {c : Char} {x : Str} (y : Str) (h : c ∉ x) :
    splitChar c (x ++ c :: y) = x :: splitChar c y := by
  induction x with
  | nil => simp [splitChar]
  | cons a x' ih =>
    simp only [List.mem_cons, not_or] at h
    simp [splitChar, ih h.2, Ne.symm h.1]

theorem splitChar_concat {c : Char} {z : Str} (y : Str) (h : c ∉ z) :
    splitChar c (y ++ c :: z) = splitChar c y ++ [z] := by
  induction y with
  | nil => simp [splitChar, splitChar_not_mem h]
  | cons a y' ih =>
    have h1 : (a :: y') ++ c :: z = a :: (y' ++ c :: z) := rfl
    rw [h1]
    simp only [splitChar]
    rw [ih]
    cases hy : splitChar c y' with
    | nil => exact absurd hy (splitChar_ne_nil c y')
    | cons hh tt => split <;> simp

theorem joinSep_cons (sep x : Str) {L : List Str} (h : L ≠ []) :
    joinSep sep (x :: L) = x ++ sep ++ joinSep sep L := by
  cases L with
  | nil => exact absurd rfl h
  | cons y r => rfl

theorem joinSep_splitChar (c : Char) (s : Str) :
    joinSep [c] (splitChar c s) = s := by
  induction s with
  | nil => rfl
  | cons a rest ih =>
    simp only [splitChar]
    cases hy : splitChar c rest with
    | nil => exact absurd hy (splitChar_ne_nil c rest)
    | cons h t =>
      rw [hy] at ih
      split
      · next hac =>
        subst hac
        rw [joinSep_cons _ _ (by simp), ih]
        rfl
      · next hac =>
        simp only [List.headD_cons, List.tail_cons]
        cases t with
        | nil => simpa [joinSep] using congrArg (a :: ·) ih
        | cons t0 ts =>
          rw [joinSep_cons _ _ (by simp)] at ih ⊢
          simpa [List.cons_append] using congrArg (a :: ·) ih

theorem splitChar_joinSep {c : Char} {L : List Str} (hne : L ≠ [])
    (h : ∀ l ∈ L, c ∉ l) : splitChar c (joinSep [c] L) = L := by
  induction L with
  | nil => exact absurd rfl hne
  | cons x L' ih =>
    cases L' with
    | nil => exact splitChar_not_mem (h x (by simp))
    | cons y r =>
      rw [joinSep_cons _ _ (by simp)]
      have hx : c ∉ x := h x (by simp)
      have : x ++ [c] ++ joinSep [c] (y :: r) = x ++ c :: joinSep [c] (y :: r) := by
        simp
      rw [this, splitChar_cons _ hx, ih (by simp) (fun l hl => h l (by simp [hl]))]

theorem unescQ_escQ (s : Str) : unescQ (escQ s) = s := by
  induction s with
  | nil => rfl
  | cons a r ih =>
    by_cases ha : a = '"'
    · subst ha
      simp [escQ, unescQ, ih]
    · simp only [escQ, if_neg ha]
      cases he : escQ r with
      | nil =>
        have hr : r = [] := by
          cases r with
          | nil => rfl
          | cons b r' =>
            simp only [escQ] at he
            split at he <;> simp at he
        subst hr
        rfl
      | cons b t =>
        rw [unescQ]
        rw [if_neg (by simp [ha])]
        rw [← he, ih]

theorem escQ_not_mem {b : Char} {s : Str} (hb : b ≠ '"') (h : b ∉ s) :
    b ∉ escQ s := by
  induction s with
  | nil => simp [escQ]
  | cons a r ih =>
    simp only [List.mem_cons, not_or] at h
    simp only [escQ]
    split <;> simp [List.mem_cons, hb, h.1, ih h.2]

theorem quoteCtx_length (c : Str) : 2 ≤ (quoteCtx c).length := by
  simp [quoteCtx]

theorem stripQuotes_quoteCtx (c : Str) : stripQuotes (quoteCtx c) = c := by
  have hlen : (quoteCtx c).length = (escQ c).length + 2 := by simp [quoteCtx]
  have hhead : (quoteCtx c).headD ' ' = '"' := rfl
  have hlast : (quoteCtx c).getLastD ' ' = '"' := by
    have h2 : quoteCtx c = ('"' :: escQ c) ++ ['"'] := by simp [quoteCtx]
    rw [h2, List.getLastD_eq_getLast?, List.getLast?_append]
    rfl
  have hne1 : (quoteCtx c).length ≠ 1 := by omega
  rw [stripQuotes, if_pos (by rw [hhead, hlast]; simp), if_neg hne1]
  have hd : ((quoteCtx c).drop 1).dropLast = escQ c := by
    show ((('"' : Char) :: (escQ c ++ ['"'])).drop 1).dropLast = escQ c
    simp
  rw [hd, unescQ_escQ]

theorem jsTrim_ne_nil_of_mem {a : Char} {l : Str} (ha : a ∈ l)
    (hws : isWS a = false) : jsTrim l ≠ [] := by
  intro h
  unfold jsTrim at h
  rw [List.reverse_eq_nil_iff, List.dropWhile_eq_nil_iff] at h
  have h' : ∀ x ∈ l.dropWhile isWS, isWS x := by
    intro x hx
    exact h x (by simpa using hx)
  have : a ∈ l.takeWhile isWS ∨ a ∈ l.dropWhile isWS := by
    rw [← List.mem_append, List.takeWhile_append_dropWhile]
    exact ha
  rcases this with h1 | h1
  · exact absurd (List.mem_takeWhile_imp h1) (by simp [hws])
  · exact absurd (h' a h1) (by simp [hws])

/-! ## Lemmas: decimal digits and parseFloat -/

theorem natDigitsAux_eq_of_lt : ∀ {n f1 f2 : Nat}, n < f1 → n < f2 →
    natDigitsAux f1 n = natDigitsAux f2 n := by
  intro n
  induction n using Nat.strong_induction_on with
  | _ n ih =>
    intro f1 f2 h1 h2
    cases f1 with
    | zero => omega
    | succ k1 =>
      cases f2 with
      | zero => omega
      | succ k2 =>
        rw [natDigitsAux, natDigitsAux]
        split
        · rfl
        · next h =>
          congr 1
          have hdiv : n / 10 < n := Nat.div_lt_self (by omega) (by omega)
          exact ih (n / 10) hdiv (by omega) (by omega)

theorem natDigits_eq (n : Nat) : natDigits n =
    if n < 10 then [digitChar n] else natDigits (n / 10) ++ [digitChar (n % 10)] := by
  rw [natDigits, natDigitsAux]
  split
  · rfl
  · next h =>
    congr 1
    have hdiv : n / 10 < n := Nat.div_lt_self (by omega) (by omega)
    exact natDigitsAux_eq_of_lt hdiv (Nat.lt_succ_self _)

theorem digitChar_isDigit {d : Nat} (h : d < 10) : (digitChar d).isDigit = true := by
  interval_cases d <;> decide

theorem digitChar_toNat {d : Nat} (h : d < 10) : (digitChar d).toNat = 48 + d := by
  interval_cases d <;> decide

theorem natDigits_ne_nil (n : Nat) : natDigits n ≠ [] := by
  rw [natDigits_eq]
  split <;> simp

theorem natDigits_all_digit (n : Nat) : ∀ a ∈ natDigits n, a.isDigit = true := by
  induction n using Nat.strong_induction_on with
  | _ n ih =>
    rw [natDigits_eq]
    split
    · next h => simpa using digitChar_isDigit h
    · next h =>
      intro a ha
      rcases List.mem_append.1 ha with h1 | h1
      · exact ih (n / 10) (Nat.div_lt_self (by omega) (by omega)) a h1
      · simp only [List.mem_singleton] at h1
        subst h1
        exact digitChar_isDigit (Nat.mod_lt _ (by omega))

theorem digitsToNat_natDigits (n : Nat) : digitsToNat (natDigits n) = n := by
  induction n using Nat.strong_induction_on with
  | _ n ih =>
    rw [natDigits_eq]
    split
    · next h =>
      simp [digitsToNat, digitChar_toNat h]
    · next h =>
      have hd : digitsToNat (natDigits (n / 10)) = n / 10 :=
        ih (n / 10) (Nat.div_lt_self (by omega) (by omega))
      unfold digitsToNat at hd ⊢
      rw [List.foldl_append, hd]
      simp only [List.foldl_cons, List.foldl_nil]
      rw [digitChar_toNat (Nat.mod_lt _ (by omega))]
      omega

theorem digitsToNat_replicate_zero (k : Nat) (l : Str) :
    digitsToNat (List.replicate k '0' ++ l) = digitsToNat l := by
  induction k with
  | zero => simp
  | succ k ih =>
    unfold digitsToNat at ih ⊢
    simp only [List.replicate_succ, List.cons_append, List.foldl_cons]
    simpa using ih

theorem digitsToNat_padZeros (k : Nat) (l : Str) :
    digitsToNat (padZeros k l) = digitsToNat l :=
  digitsToNat_replicate_zero _ _

theorem natDigits_length_le {n k : Nat} (hk : 1 ≤ k) (h : n < 10 ^ k) :
    (natDigits n).length ≤ k := by
  induction n using Nat.strong_induction_on generalizing k with
  | _ n ih =>
    rw [natDigits_eq]
    split
    · next h10 => simpa using hk
    · next h10 =>
      have hk2 : 2 ≤ k := by
        by_contra hc
        have : k = 1 := by omega
        subst this
        simp at h
        omega
      have hlt : n / 10 < 10 ^ (k - 1) := by
        rw [Nat.div_lt_iff_lt_mul (by omega)]
        calc n < 10 ^ k := h
        _ = 10 ^ (k - 1) * 10 := by
            rw [← pow_succ]
            congr 1
            omega
      have := ih (n / 10) (Nat.div_lt_self (by omega) (by omega)) (by omega) hlt
      simp only [List.length_append, List.length_singleton]
      omega

theorem padZeros_length {k : Nat} {l : Str} (h : l.length ≤ k) :
    (padZeros k l).length = k := by
  simp [padZeros]
  omega

theorem padZeros_all_digit {k : Nat} {l : Str} (h : ∀ a ∈ l, a.isDigit = true) :
    ∀ a ∈ padZeros k l, a.isDigit = true := by
  intro a ha
  rcases List.mem_append.1 ha with h1 | h1
  · rw [List.eq_of_mem_replicate h1]
    decide
  · exact h a h1

theorem takeWhile_all {p : Char → Bool} {l : Str} (h : ∀ a ∈ l, p a = true) :
    l.takeWhile p = l :=
  List.takeWhile_eq_self_iff.2 h

theorem dropWhile_all {p : Char → Bool} {l : Str} (h : ∀ a ∈ l, p a = true) :
    l.dropWhile p = [] :=
  List.dropWhile_eq_nil_iff.2 h

theorem takeWhile_append_not {p : Char → Bool} {l1 : Str}
    (hall : ∀ a ∈ l1, p a = true) {b : Char} (hb : p b = false) (l2 : Str) :
    (l1 ++ b :: l2).takeWhile p = l1 := by
  induction l1 with
  | nil => simp [List.takeWhile_cons, hb]
  | cons a l ih =>
    have ha : p a = true := hall a (by simp)
    simp only [List.cons_append, List.takeWhile_cons, ha]
    simp [ih (fun x hx => hall x (by simp [hx]))]

theorem dropWhile_append_not {p : Char → Bool} {l1 : Str}
    (hall : ∀ a ∈ l1, p a = true) {b : Char} (hb : p b = false) (l2 : Str) :
    (l1 ++ b :: l2).dropWhile p = b :: l2 := by
  induction l1 with
  | nil => simp [List.dropWhile_cons, hb]
  | cons a l ih =>
    have ha : p a = true := hall a (by simp)
    simp only [List.cons_append, List.dropWhile_cons, ha]
    simpa using ih (fun x hx => hall x (by simp [hx]))

theorem dotChar_not_digit : ('.' : Char).isDigit = false := by decide

theorem parseUnsigned_natDigits (n : Nat) :
    parseUnsigned (natDigits n) = some (n : ℚ) := by
  unfold parseUnsigned
  rw [takeWhile_all (natDigits_all_digit n), dropWhile_all (natDigits_all_digit n)]
  rw [if_neg (by simp [natDigits_ne_nil n])]
  have h0 : digitsToNat [] = 0 := rfl
  simp [digitsToNat_natDigits, h0]

theorem parseUnsigned_frac (a : Nat) {P : Str}
    (hP : ∀ c ∈ P, c.isDigit = true) :
    parseUnsigned (natDigits a ++ '.' :: P)
      = some ((a : ℚ) + (digitsToNat P : ℚ) / (10 : ℚ) ^ P.length) := by
  unfold parseUnsigned
  rw [takeWhile_append_not (natDigits_all_digit a) dotChar_not_digit,
    dropWhile_append_not (natDigits_all_digit a) dotChar_not_digit]
  simp only [List.headD_cons, List.tail_cons, if_pos rfl]
  rw [takeWhile_all hP, dropWhile_all hP]
  rw [if_neg (by simp [natDigits_ne_nil a])]
  simp [digitsToNat_natDigits]

theorem scaled_cast {q : ℚ} {k : Nat} (hq : 0 ≤ q) (hdvd : q.den ∣ 10 ^ k) :
    ((q.num.toNat * 10 ^ k / q.den : ℕ) : ℚ) = q * 10 ^ k := by
  have hden : ((q.den : ℕ) : ℚ) ≠ 0 := by
    exact_mod_cast q.den_ne_zero
  have hdvd2 : q.den ∣ q.num.toNat * 10 ^ k := Dvd.dvd.mul_left hdvd _
  rw [Nat.cast_div hdvd2 hden]
  have hnum : ((q.num.toNat : ℕ) : ℚ) = (q.num : ℚ) := by
    have := Int.toNat_of_nonneg (Rat.num_nonneg.2 hq)
    exact_mod_cast congrArg (fun z : ℤ => (z : ℚ)) this
  rw [Nat.cast_mul, hnum, Nat.cast_pow]
  rw [mul_div_right_comm]
  norm_num [Rat.num_div_den]

theorem parseUnsigned_nnRatToStr {q : ℚ} (hq : 0 ≤ q) (hd : IsFiniteDecimal q) :
    parseUnsigned (nnRatToStr q) = some q := by
  unfold nnRatToStr
  have hscast : ((q.num.toNat * 10 ^ decExp q / q.den : ℕ) : ℚ) = q * 10 ^ decExp q :=
    scaled_cast hq hd
  set k := decExp q with hkdef
  set scaled := q.num.toNat * 10 ^ k / q.den with hsdef
  by_cases hk : k = 0
  · rw [if_pos hk, parseUnsigned_natDigits]
    rw [hk] at hscast
    simp only [pow_zero, mul_one] at hscast
    rw [hscast]
  · rw [if_neg hk]
    have hmodlt : scaled % 10 ^ k < 10 ^ k := Nat.mod_lt _ (by positivity)
    have hlen1 : (natDigits (scaled % 10 ^ k)).length ≤ k :=
      natDigits_length_le (by omega) hmodlt
    have hPdig : ∀ c ∈ padZeros k (natDigits (scaled % 10 ^ k)), c.isDigit = true :=
      padZeros_all_digit (natDigits_all_digit _)
    have hPlen : (padZeros k (natDigits (scaled % 10 ^ k))).length = k :=
      padZeros_length hlen1
    rw [parseUnsigned_frac _ hPdig, hPlen, digitsToNat_padZeros,
      digitsToNat_natDigits]
    have h10 : ((10 : ℚ) ^ k) ≠ 0 := by positivity
    congr 1
    have hnat : scaled / 10 ^ k * 10 ^ k + scaled % 10 ^ k = scaled := by
      rw [Nat.mul_comm]
      exact Nat.div_add_mod scaled (10 ^ k)
    have hsum : ((scaled / 10 ^ k : ℕ) : ℚ) * (10 : ℚ) ^ k + ((scaled % 10 ^ k : ℕ) : ℚ)
        = (scaled : ℚ) := by
      calc ((scaled / 10 ^ k : ℕ) : ℚ) * (10 : ℚ) ^ k + ((scaled % 10 ^ k : ℕ) : ℚ)
          = ((scaled / 10 ^ k * 10 ^ k + scaled % 10 ^ k : ℕ) : ℚ) := by
            push_cast
            ring
        _ = (scaled : ℚ) := by rw [hnat]
    have hstep : ((scaled / 10 ^ k : ℕ) : ℚ) + ((scaled % 10 ^ k : ℕ) : ℚ) / (10 : ℚ) ^ k
        = (scaled : ℚ) / (10 : ℚ) ^ k := by
      rw [eq_div_iff h10, add_mul, div_mul_cancel₀ _ h10, hsum]
    rw [hstep, hscast, mul_div_cancel_right₀ _ h10]

theorem nnRatToStr_head (q : ℚ) :
    ∃ d rest, nnRatToStr q = d :: rest ∧ d.isDigit = true := by
  have hrw : nnRatToStr q =
      (if decExp q = 0 then natDigits (q.num.toNat * 10 ^ decExp q / q.den)
       else natDigits (q.num.toNat * 10 ^ decExp q / q.den / 10 ^ decExp q) ++ '.' ::
         padZeros (decExp q)
           (natDigits (q.num.toNat * 10 ^ decExp q / q.den % 10 ^ decExp q))) := rfl
  by_cases hk : decExp q = 0
  · rw [hrw, if_pos hk]
    cases h : natDigits (q.num.toNat * 10 ^ decExp q / q.den) with
    | nil => exact absurd h (natDigits_ne_nil _)
    | cons d r =>
      exact ⟨d, r, rfl, natDigits_all_digit _ d (by rw [h]; simp)⟩
  · rw [hrw, if_neg hk]
    cases h : natDigits (q.num.toNat * 10 ^ decExp q / q.den / 10 ^ decExp q) with
    | nil => exact absurd h (natDigits_ne_nil _)
    | cons d r =>
      refine ⟨d, r ++ '.' ::
        padZeros (decExp q) (natDigits (q.num.toNat * 10 ^ decExp q / q.den % 10 ^ decExp q)),
        ?_, natDigits_all_digit _ d (by rw [h]; simp)⟩
      simp

theorem ne_of_isDigit_of_lt {d c : Char} (h : d.isDigit = true) (hc : c < '0') :
    d ≠ c := by
  intro he
  subst he
  simp only [Char.isDigit, Bool.and_eq_true, decide_eq_true_eq] at h
  exact absurd h.1 (not_le.2 hc)

theorem isWS_of_isDigit {d : Char} (h : d.isDigit = true) : isWS d = false := by
  simp only [isWS, Bool.or_eq_false_iff, decide_eq_false_iff_not]
  refine ⟨⟨⟨⟨⟨?_, ?_⟩, ?_⟩, ?_⟩, ?_⟩, ?_⟩ <;>
    exact ne_of_isDigit_of_lt h (by decide)

theorem IsFiniteDecimal.neg {q : ℚ} (hd : IsFiniteDecimal q) :
    IsFiniteDecimal (-q) := by
  unfold IsFiniteDecimal decExp at *
  rwa [Rat.den_neg_eq_den]

theorem jsParseFloat_cons {a : Char} (r : Str) (ha : isWS a = false) :
    jsParseFloat (a :: r) =
      (if a = '+' then parseUnsigned r
       else if a = '-' then (parseUnsigned r).map (fun x => -x)
       else parseUnsigned (a :: r)) := by
  rw [jsParseFloat]
  have hdw : List.dropWhile isWS (a :: r) = a :: r := by
    rw [List.dropWhile_cons, ha]
    simp
  rw [hdw]

theorem jsParseFloat_ratToStr {q : ℚ} (hd : IsFiniteDecimal q) :
    jsParseFloat (ratToStr q) = some q := by
  by_cases hq : q < 0
  · rw [ratToStr, if_pos hq]
    rw [jsParseFloat_cons _ (by decide)]
    rw [if_neg (by decide), if_pos rfl]
    rw [parseUnsigned_nnRatToStr (by linarith) hd.neg]
    simp
  · rw [ratToStr, if_neg hq]
    push_neg at hq
    obtain ⟨d, rest, heq, hdig⟩ := nnRatToStr_head q
    rw [heq, jsParseFloat_cons _ (isWS_of_isDigit hdig)]
    rw [if_neg (ne_of_isDigit_of_lt hdig (by decide)),
      if_neg (ne_of_isDigit_of_lt hdig (by decide))]
    rw [← heq, parseUnsigned_nnRatToStr hq hd]

/-! ## Lemmas: the exported line and its re-parse -/

theorem ratToStr_chars {q : ℚ} :
    ∀ a ∈ ratToStr q, a.isDigit = true ∨ a = '-' ∨ a = '.' := by
  have hnn : ∀ (p : ℚ), ∀ a ∈ nnRatToStr p, a.isDigit = true ∨ a = '.' := by
    intro p a ha
    have hrw : nnRatToStr p =
        (if decExp p = 0 then natDigits (p.num.toNat * 10 ^ decExp p / p.den)
         else natDigits (p.num.toNat * 10 ^ decExp p / p.den / 10 ^ decExp p) ++ '.' ::
           padZeros (decExp p)
             (natDigits (p.num.toNat * 10 ^ decExp p / p.den % 10 ^ decExp p))) := rfl
    rw [hrw] at ha
    split at ha
    · exact Or.inl (natDigits_all_digit _ a ha)
    · rcases List.mem_append.1 ha with h1 | h1
      · exact Or.inl (natDigits_all_digit _ a h1)
      · rcases List.mem_cons.1 h1 with h2 | h2
        · exact Or.inr h2
        · exact Or.inl (padZeros_all_digit (natDigits_all_digit _) a h2)
  intro a ha
  rw [ratToStr] at ha
  split at ha
  · rcases List.mem_cons.1 ha with h2 | h2
    · exact Or.inr (Or.inl h2)
    · rcases hnn _ a h2 with h3 | h3
      · exact Or.inl h3
      · exact Or.inr (Or.inr h3)
  · rcases hnn _ a ha with h3 | h3
    · exact Or.inl h3
    · exact Or.inr (Or.inr h3)

theorem ratToStr_no_comma (q : ℚ) : ',' ∉ ratToStr q := by
  intro h
  rcases ratToStr_chars ',' h with h1 | h1 | h1 <;> revert h1 <;> decide

theorem ratToStr_no_nl (q : ℚ) : '\n' ∉ ratToStr q := by
  intro h
  rcases ratToStr_chars '\n' h with h1 | h1 | h1 <;> revert h1 <;> decide

theorem ratToStr_no_quote (q : ℚ) : '"' ∉ ratToStr q := by
  intro h
  rcases ratToStr_chars '"' h with h1 | h1 | h1 <;> revert h1 <;> decide

theorem parseStatus_str (s : AssetStatus) : parseStatus s.str = some s := by
  cases s <;> rfl

theorem status_str_no_comma (s : AssetStatus) : ',' ∉ s.str := by
  cases s <;> decide

theorem status_str_no_nl (s : AssetStatus) : '\n' ∉ s.str := by
  cases s <;> decide

theorem status_str_ne_nil (s : AssetStatus) : s.str ≠ [] := by
  cases s <;> decide

theorem status_str_getLast? (s : AssetStatus) : s.str.getLast? ≠ some '\r' := by
  cases s <;> decide

theorem markerLine_eq (m : Marker) :
    markerLine m = ratToStr m.timestamp ++
      ',' :: (quoteCtx m.context ++ ',' :: (m.type ++ ',' :: m.status.str)) := by
  simp [markerLine, joinSep]

theorem quoteCtx_no_nl {c : Str} (h : '\n' ∉ c) : '\n' ∉ quoteCtx c := by
  rw [quoteCtx]
  intro hm
  rcases List.mem_cons.1 hm with h1 | h1
  · exact absurd h1 (by decide)
  · rcases List.mem_append.1 h1 with h2 | h2
    · exact escQ_not_mem (by decide) h h2
    · simp at h2

theorem markerLine_no_nl {m : Marker} (hc : '\n' ∉ m.context)
    (ht : '\n' ∉ m.type) : '\n' ∉ markerLine m := by
  rw [markerLine_eq]
  intro hm
  rcases List.mem_append.1 hm with h1 | h1
  · exact ratToStr_no_nl _ h1
  · rcases List.mem_cons.1 h1 with h2 | h2
    · exact absurd h2 (by decide)
    · rcases List.mem_append.1 h2 with h3 | h3
      · exact quoteCtx_no_nl hc h3
      · rcases List.mem_cons.1 h3 with h4 | h4
        · exact absurd h4 (by decide)
        · rcases List.mem_append.1 h4 with h5 | h5
          · exact ht h5
          · rcases List.mem_cons.1 h5 with h6 | h6
            · exact absurd h6 (by decide)
            · exact status_str_no_nl _ h6

theorem getLast?_append_right {α : Type} {l1 l2 : List α} (h : l2 ≠ []) :
    (l1 ++ l2).getLast? = l2.getLast? := by
  rw [List.getLast?_append]
  cases hs : l2.getLast? with
  | none => exact absurd (List.getLast?_eq_none_iff.1 hs) h
  | some a => rfl

theorem markerLine_getLast? (m : Marker) :
    (markerLine m).getLast? = m.status.str.getLast? := by
  have h1 : markerLine m =
      (ratToStr m.timestamp ++ ',' :: (quoteCtx m.context ++ ',' :: (m.type ++ [','])))
        ++ m.status.str := by
    rw [markerLine_eq]
    simp
  rw [h1, getLast?_append_right (status_str_ne_nil m.status)]

theorem stripTrailCR_eq_self {l : Str} (h : l.getLast? ≠ some '\r') :
    stripTrailCR l = l := by
  rw [stripTrailCR]
  cases hl : l.getLast? with
  | none => rfl
  | some c =>
    have : c ≠ '\r' := fun hc => h (by rw [hl, hc])
    simp [this]

theorem stripTrailCR_markerLine (m : Marker) :
    stripTrailCR (markerLine m) = markerLine m :=
  stripTrailCR_eq_self (by rw [markerLine_getLast?]; exact status_str_getLast? m.status)

theorem quote_mem_markerLine (m : Marker) : '"' ∈ markerLine m := by
  rw [markerLine_eq, quoteCtx]
  simp

theorem markerLine_not_blank (m : Marker) : isBlank (markerLine m) = false := by
  have h := jsTrim_ne_nil_of_mem (quote_mem_markerLine m) (by decide)
  simp [isBlank, h]

theorem splitChar_markerLine {m : Marker} (hcomma : ',' ∉ m.type) :
    splitChar ',' (markerLine m) =
      ratToStr m.timestamp ::
        (splitChar ',' (quoteCtx m.context) ++ [m.type, m.status.str]) := by
  rw [markerLine_eq]
  rw [splitChar_cons _ (ratToStr_no_comma m.timestamp)]
  congr 1
  have h1 : quoteCtx m.context ++ ',' :: (m.type ++ ',' :: m.status.str)
      = (quoteCtx m.context ++ ',' :: m.type) ++ ',' :: m.status.str := by
    simp
  rw [h1, splitChar_concat _ (status_str_no_comma m.status),
    splitChar_concat _ hcomma]
  simp

theorem parseLine_markerLine (vt : List Str) (idx : Nat) {m : Marker}
    (hty : m.type ∈ vt) (hcomma : ',' ∉ m.type)
    (hdec : IsFiniteDecimal m.timestamp) :
    parseLine vt idx (markerLine m)
      = .ok ⟨m.timestamp, m.context, m.type, m.status⟩ := by
  obtain ⟨q0, qr, hq⟩ := List.exists_cons_of_ne_nil
    (splitChar_ne_nil ',' (quoteCtx m.context))
  unfold parseLine
  rw [splitChar_markerLine hcomma]
  rw [if_neg (by rw [hq]; simp [List.length_cons])]
  have hlast : (ratToStr m.timestamp ::
      (splitChar ',' (quoteCtx m.context) ++ [m.type, m.status.str])).getLastD []
      = m.status.str := by
    have : ratToStr m.timestamp ::
        (splitChar ',' (quoteCtx m.context) ++ [m.type, m.status.str])
        = (ratToStr m.timestamp :: (splitChar ',' (quoteCtx m.context) ++ [m.type]))
          ++ [m.status.str] := by simp
    rw [this, List.getLastD_concat]
  have hdropLast : (ratToStr m.timestamp ::
      (splitChar ',' (quoteCtx m.context) ++ [m.type, m.status.str])).dropLast
      = ratToStr m.timestamp :: (splitChar ',' (quoteCtx m.context) ++ [m.type]) := by
    have : ratToStr m.timestamp ::
        (splitChar ',' (quoteCtx m.context) ++ [m.type, m.status.str])
        = (ratToStr m.timestamp :: (splitChar ',' (quoteCtx m.context) ++ [m.type]))
          ++ [m.status.str] := by simp
    rw [this, List.dropLast_concat]
  have htype : (ratToStr m.timestamp ::
      (splitChar ',' (quoteCtx m.context) ++ [m.type])).getLastD [] = m.type := by
    have : ratToStr m.timestamp :: (splitChar ',' (quoteCtx m.context) ++ [m.type])
        = (ratToStr m.timestamp :: splitChar ',' (quoteCtx m.context)) ++ [m.type] := by
      simp
    rw [this, List.getLastD_concat]
  have hctx : (((ratToStr m.timestamp ::
      (splitChar ',' (quoteCtx m.context) ++ [m.type, m.status.str])).drop 1).dropLast).dropLast
      = splitChar ',' (quoteCtx m.context) := by
    have h2 : (ratToStr m.timestamp ::
        (splitChar ',' (quoteCtx m.context) ++ [m.type, m.status.str])).drop 1
        = (splitChar ',' (quoteCtx m.context) ++ [m.type]) ++ [m.status.str] := by
      simp
    rw [h2, List.dropLast_concat, List.dropLast_concat]
  rw [hlast, hdropLast, htype, hctx, List.headD_cons]
  rw [joinSep_splitChar, stripQuotes_quoteCtx]
  dsimp only
  rw [jsParseFloat_ratToStr hdec]
  simp [parseStatus_str, hty]

/-! ## Lemmas: processing exported lines, line splitting, sorting -/

theorem rowToMarker_setId (now idx : Nat) (m : Marker) :
    rowToMarker now idx ⟨m.timestamp, m.context, m.type, m.status⟩
      = setId m (importedId now idx) := rfl

theorem processLines_markerLines (vt : List Str) (now : Nat) (L : List Marker)
    (h : ∀ m ∈ L, m.type ∈ vt ∧ ',' ∉ m.type ∧ IsFiniteDecimal m.timestamp) :
    ∀ idx, processLines vt now idx (L.map markerLine) = .ok (reIds now idx L) := by
  induction L with
  | nil => intro idx; rfl
  | cons m L' ih =>
    intro idx
    obtain ⟨hty, hcomma, hdec⟩ := h m (by simp)
    rw [List.map_cons, processLines, if_neg (by simp [markerLine_not_blank m])]
    rw [parseLine_markerLine vt idx hty hcomma hdec]
    rw [ih (fun x hx => h x (by simp [hx])) (idx + 1)]
    dsimp only
    rw [rowToMarker_setId]
    rfl

theorem map_content_reIds (now : Nat) (L : List Marker) :
    ∀ idx, (reIds now idx L).map Marker.content = L.map Marker.content := by
  induction L with
  | nil => intro idx; rfl
  | cons m L' ih =>
    intro idx
    rw [reIds, List.map_cons, List.map_cons, ih (idx + 1)]
    rfl

theorem dropLast_append_getLastD {α : Type} {L : List α} (h : L ≠ []) (d : α) :
    L.dropLast ++ [L.getLastD d] = L := by
  rw [List.getLastD_eq_getLast?, List.getLast?_eq_getLast _ h]
  exact List.dropLast_append_getLast h

theorem splitLines_joinSep {L : List Str} (hne : L ≠ [])
    (hnl : ∀ l ∈ L, '\n' ∉ l) (hcr : ∀ l ∈ L, stripTrailCR l = l) :
    splitLines (joinSep ['\n'] L) = L := by
  rw [splitLines, splitChar_joinSep hne hnl]
  rw [List.map_congr_left (fun l hl => hcr l (List.dropLast_subset L hl))]
  rw [show (fun (l : Str) => l) = id from rfl, List.map_id]
  exact dropLast_append_getLastD hne []

theorem csvHeader_stripTrailCR : stripTrailCR csvHeader = csvHeader := by
  decide

theorem csvHeader_no_nl : '\n' ∉ csvHeader := by decide

theorem splitLines_export {markers : List Marker}
    (h : ∀ m ∈ markers, '\n' ∉ m.context ∧ '\n' ∉ m.type) :
    splitLines (exportMarkersCsv markers) = csvHeader :: markers.map markerLine := by
  rw [exportMarkersCsv]
  apply splitLines_joinSep (by simp)
  · intro l hl
    rcases List.mem_cons.1 hl with h1 | h1
    · rw [h1]; exact csvHeader_no_nl
    · obtain ⟨m, hm, rfl⟩ := List.mem_map.1 h1
      exact markerLine_no_nl (h m hm).1 (h m hm).2
  · intro l hl
    rcases List.mem_cons.1 hl with h1 | h1
    · rw [h1]; exact csvHeader_stripTrailCR
    · obtain ⟨m, hm, rfl⟩ := List.mem_map.1 h1
      exact stripTrailCR_markerLine m

instance : IsTotal Marker tsLe :=
  ⟨fun a b => le_total a.timestamp b.timestamp⟩

instance : IsTrans Marker tsLe :=
  ⟨fun _ _ _ hab hbc => le_trans hab hbc⟩

instance : IsTotal (ℚ × Str × Str × AssetStatus) contentLe :=
  ⟨fun a b => le_total a.1 b.1⟩

instance : IsTrans (ℚ × Str × Str × AssetStatus) contentLe :=
  ⟨fun _ _ _ hab hbc => le_trans hab hbc⟩

theorem map_content_insertionSort (L : List Marker) :
    (List.insertionSort tsLe L).map Marker.content
      = List.insertionSort contentLe (L.map Marker.content) :=
  List.map_insertionSort tsLe contentLe Marker.content L
    (fun _ _ _ _ => Iff.rfl)

theorem importMarkers_export {vt : List Str} {markers : List Marker} (now : Nat)
    (h : ∀ m ∈ markers, '\n' ∉ m.context ∧ '\n' ∉ m.type ∧ ',' ∉ m.type ∧
      m.type ∈ vt ∧ IsFiniteDecimal m.timestamp) :
    importMarkers vt now (exportMarkersCsv markers)
      = .ok (List.insertionSort tsLe (reIds now 0 markers)) := by
  rw [importMarkers, splitLines_export (fun m hm => ⟨(h m hm).1, (h m hm).2.1⟩)]
  rw [List.drop_one, List.tail_cons]
  rw [processLines_markerLines vt now markers
    (fun m hm => ⟨(h m hm).2.2.2.1, (h m hm).2.2.1, (h m hm).2.2.2.2⟩) 0]

/-! ## Lemmas: where an import error comes from -/

theorem processLines_error_spec (vt : List Str) (now : Nat) :
    ∀ (ls : List Str) (idx : Nat) (e : Str),
    processLines vt now idx ls = .error e →
    ∃ i l, ls[i]? = some l ∧ isBlank l = false ∧
      parseLine vt (idx + i) l = .error e ∧
      ∀ j < i, ∀ l', ls[j]? = some l' →
        isBlank l' = true ∨ ∃ r, parseLine vt (idx + j) l' = .ok r := by
  intro ls
  induction ls with
  | nil => intro idx e h; exact absurd h (by rw [processLines]; simp)
  | cons l ls ih =>
    intro idx e h
    rw [processLines] at h
    by_cases hb : isBlank l
    · rw [if_pos hb] at h
      obtain ⟨i, l', hl', hbl', hpl', hbefore⟩ := ih (idx + 1) e h
      refine ⟨i + 1, l', by simpa using hl', hbl', ?_, ?_⟩
      · have : idx + 1 + i = idx + (i + 1) := by omega
        rwa [this] at hpl'
      · intro j hj l2 hl2
        cases j with
        | zero =>
          left
          simp only [List.getElem?_cons_zero, Option.some_inj] at hl2
          rwa [← hl2]
        | succ j' =>
          have hj' : j' < i := by omega
          have := hbefore j' hj' l2 (by simpa using hl2)
          rcases this with h1 | ⟨r, hr⟩
          · exact Or.inl h1
          · refine Or.inr ⟨r, ?_⟩
            have : idx + 1 + j' = idx + (j' + 1) := by omega
            rwa [this] at hr
    · rw [if_neg hb] at h
      cases hp : parseLine vt idx l with
      | error e0 =>
        rw [hp] at h
        simp only [Except.error.injEq] at h
        refine ⟨0, l, by simp, by simpa using hb, ?_, ?_⟩
        · rw [Nat.add_zero, hp, h]
        · intro j hj
          omega
      | ok r =>
        rw [hp] at h
        cases hrest : processLines vt now (idx + 1) ls with
        | error e1 =>
          rw [hrest] at h
          simp only [Except.error.injEq] at h
          subst h
          obtain ⟨i, l', hl', hbl', hpl', hbefore⟩ := ih (idx + 1) e1 hrest
          refine ⟨i + 1, l', by simpa using hl', hbl', ?_, ?_⟩
          · have : idx + 1 + i = idx + (i + 1) := by omega
            rwa [this] at hpl'
          · intro j hj l2 hl2
            cases j with
            | zero =>
              right
              simp only [List.getElem?_cons_zero, Option.some_inj] at hl2
              exact ⟨r, by rw [Nat.add_zero, ← hl2, hp]⟩
            | succ j' =>
              have hj' : j' < i := by omega
              have := hbefore j' hj' l2 (by simpa using hl2)
              rcases this with h1 | ⟨r', hr'⟩
              · exact Or.inl h1
              · refine Or.inr ⟨r', ?_⟩
                have : idx + 1 + j' = idx + (j' + 1) := by omega
                rwa [this] at hr'
        | ok ms => rw [hrest] at h; simp at h

theorem processLines_reaches_error (vt : List Str) (now : Nat) :
    ∀ (ls : List Str) (idx i : Nat) (l : Str) (e : Str),
    ls[i]? = some l → isBlank l = false → parseLine vt (idx + i) l = .error e →
    (∀ j < i, ∀ l', ls[j]? = some l' →
      isBlank l' = true ∨ ∃ r, parseLine vt (idx + j) l' = .ok r) →
    processLines vt now idx ls = .error e := by
  intro ls
  induction ls with
  | nil => intro idx i l e hl; simp at hl
  | cons a ls ih =>
    intro idx i l e hl hb hp hbefore
    cases i with
    | zero =>
      simp only [List.getElem?_cons_zero, Option.some_inj] at hl
      subst hl
      rw [processLines, if_neg (by simp [hb]), Nat.add_zero] at *
      rw [hp]
    | succ i' =>
      have hhead := hbefore 0 (by omega) a (by simp)
      have hstep : processLines vt now (idx + 1) ls = .error e := by
        apply ih (idx + 1) i' l e (by simpa using hl) hb
        · have : idx + 1 + i' = idx + (i' + 1) := by omega
          rwa [this]
        · intro j hj l' hl'
          have := hbefore (j + 1) (by omega) l' (by simpa using hl')
          rcases this with h1 | ⟨r, hr⟩
          · exact Or.inl h1
          · refine Or.inr ⟨r, ?_⟩
            have : idx + (j + 1) = idx + 1 + j := by omega
            rwa [this] at hr
      rcases hhead with h1 | ⟨r, hr⟩
      · rw [processLines, if_pos h1]
        exact hstep
      · by_cases hba : isBlank a
        · rw [processLines, if_pos hba]
          exact hstep
        · rw [processLines, if_neg (by simp [hba])]
          rw [Nat.add_zero] at hr
          rw [hr, hstep]

/-! ## Claim C1 -/

/-- C1 (amended): for every marker collection in which each marker's
context contains no newline, each marker's type contains no comma and no
newline, the category set contains every marker's type, and each
timestamp is a finite decimal (as every JavaScript number is), exporting
with `handleExportMarkers` and re-importing the produced CSV text with
`handleMarkersFileChange` succeeds and yields a collection equal in
(timestamp, context, type, status) to the original sorted by timestamp
ascending, identifiers excepted. -/
theorem claim_c1_roundtrip (vt : List Str) (now : Nat) (markers : List Marker)
    (h : ∀ m ∈ markers, '\n' ∉ m.context ∧ '\n' ∉ m.type ∧ ',' ∉ m.type ∧
      m.type ∈ vt ∧ IsFiniteDecimal m.timestamp) :
    ∃ ms, importMarkers vt now (exportMarkersCsv markers) = .ok ms ∧
      ms.map Marker.content
        = (List.insertionSort tsLe markers).map Marker.content := by
  refine ⟨List.insertionSort tsLe (reIds now 0 markers), importMarkers_export now h, ?_⟩
  rw [map_content_insertionSort, map_content_insertionSort, map_content_reIds]

/-- C1 witness: the round trip at a concrete collection holding a comma
and escaped quotes in its contexts and unsorted timestamps. -/
theorem claim_c1_roundtrip_witness :
    (∀ m ∈ ([⟨"m1".data, 3, "a,b".data, "Image".data, .Done⟩,
        ⟨"m2".data, 1/2, "say \"hi\"".data, "Video".data, .ToDo⟩] : List Marker),
      '\n' ∉ m.context ∧ '\n' ∉ m.type ∧ ',' ∉ m.type ∧
        m.type ∈ ["Image".data, "Video".data] ∧ IsFiniteDecimal m.timestamp) ∧
    ∃ ms, importMarkers ["Image".data, "Video".data] 0
        (exportMarkersCsv [⟨"m1".data, 3, "a,b".data, "Image".data, .Done⟩,
          ⟨"m2".data, 1/2, "say \"hi\"".data, "Video".data, .ToDo⟩]) = .ok ms ∧
      ms.map Marker.content
        = (List.insertionSort tsLe
            [⟨"m1".data, 3, "a,b".data, "Image".data, .Done⟩,
             ⟨"m2".data, 1/2, "say \"hi\"".data, "Video".data, .ToDo⟩]).map
            Marker.content :=
  ⟨by with_unfolding_all decide,
   claim_c1_roundtrip _ 0 _ (by with_unfolding_all decide)⟩

/-- C1 counterexample to the claim as stated: a marker whose context
contains a newline exports to a CSV whose re-import fails on line 2 (the
context's second physical line has fewer than 4 columns), so the
round trip yields no collection at all. -/
theorem claim_c1_counterexample :
    importMarkers ["Image".data] 0
        (exportMarkersCsv [⟨"m1".data, 1, "a\nb".data, "Image".data, .ToDo⟩])
      = .error ("Invalid CSV format on line 2: Not enough columns.".data) ∧
    ¬ ∃ ms, importMarkers ["Image".data] 0
        (exportMarkersCsv [⟨"m1".data, 1, "a\nb".data, "Image".data, .ToDo⟩])
      = .ok ms := by
  have herr : importMarkers ["Image".data] 0
      (exportMarkersCsv [⟨"m1".data, 1, "a\nb".data, "Image".data, .ToDo⟩])
      = .error ("Invalid CSV format on line 2: Not enough columns.".data) := by
    with_unfolding_all rfl
  refine ⟨herr, ?_⟩
  rintro ⟨ms, hok⟩
  rw [herr] at hok
  exact absurd hok (by simp)

/-! ## Claims C2 and C3 -/

/-- C2: CSV marker import is all-or-nothing. If every data line is valid
the project's marker collection is replaced, in the one state update
`handleMarkersFileChange` performs, by the imported markers sorted by
timestamp ascending; if any line is invalid the import resolves to the
error of the first invalid data line (whose message carries that line's
number and reason, by the `errNotEnough`/`errTimestamp`/`errType`/
`errStatus` constructors of `parseLine`) and the project is left exactly
as it was. -/
theorem claim_c2_atomic_import (vt : List Str) (now : Nat) (text : Str)
    (proj : Project) :
    (∀ ms, importMarkers vt now text = .ok ms →
      handleMarkersFileChange vt now proj text = { proj with markers := ms } ∧
      List.Pairwise tsLe ms) ∧
    (∀ e, importMarkers vt now text = .error e →
      handleMarkersFileChange vt now proj text = proj ∧
      ∃ i l, ((splitLines text).drop 1)[i]? = some l ∧ isBlank l = false ∧
        parseLine vt i l = .error e ∧
        ∀ j < i, ∀ l', ((splitLines text).drop 1)[j]? = some l' →
          isBlank l' = true ∨ ∃ r, parseLine vt j l' = .ok r) := by
  constructor
  · intro ms hok
    constructor
    · rw [handleMarkersFileChange, hok]
    · rw [importMarkers] at hok
      cases hraw : processLines vt now 0 ((splitLines text).drop 1) with
      | error e => rw [hraw] at hok; simp at hok
      | ok raw =>
        rw [hraw] at hok
        simp only [Except.ok.injEq] at hok
        rw [← hok]
        exact List.sorted_insertionSort tsLe raw
  · intro e herr
    constructor
    · rw [handleMarkersFileChange, herr]
    · rw [importMarkers] at herr
      cases hraw : processLines vt now 0 ((splitLines text).drop 1) with
      | ok raw => rw [hraw] at herr; simp at herr
      | error e0 =>
        rw [hraw] at herr
        simp only [Except.error.injEq] at herr
        subst herr
        obtain ⟨i, l, hl, hb, hp, hbefore⟩ :=
          processLines_error_spec vt now _ 0 e0 hraw
        rw [Nat.zero_add] at hp
        refine ⟨i, l, hl, hb, hp, ?_⟩
        intro j hj l' hl'
        have := hbefore j hj l' hl'
        rwa [Nat.zero_add] at this

/-- C2 witness: the spec's own example row imports atomically into a
concrete project. -/
theorem claim_c2_atomic_import_witness :
    importMarkers ["Image".data] 0
        "timestamp,context,type,status\n5.5,\"B-roll, city\",Image,To Do".data
      = .ok [⟨importedId 0 0, 11/2, "B-roll, city".data, "Image".data, .ToDo⟩] ∧
    handleMarkersFileChange ["Image".data] 0
        ⟨"p1".data, "T".data, "a.mp3".data, 100, []⟩
        "timestamp,context,type,status\n5.5,\"B-roll, city\",Image,To Do".data
      = { (⟨"p1".data, "T".data, "a.mp3".data, 100, []⟩ : Project) with
          markers := [⟨importedId 0 0, 11/2, "B-roll, city".data, "Image".data, .ToDo⟩] } ∧
    List.Pairwise tsLe
      [⟨importedId 0 0, 11/2, "B-roll, city".data, "Image".data, .ToDo⟩] := by
  have hok : importMarkers ["Image".data] 0
      "timestamp,context,type,status\n5.5,\"B-roll, city\",Image,To Do".data
      = .ok [⟨importedId 0 0, 11/2, "B-roll, city".data, "Image".data, .ToDo⟩] := by
    with_unfolding_all rfl
  have h := (claim_c2_atomic_import ["Image".data] 0
    "timestamp,context,type,status\n5.5,\"B-roll, city\",Image,To Do".data
    ⟨"p1".data, "T".data, "a.mp3".data, 100, []⟩).1 _ hok
  exact ⟨hok, h.1, h.2⟩

/-- C3: if the data line at 0-based index `i` after the CSV header (the
claim's `N`-th line, `N = i + 1`) is not blank and splits on commas into
fewer than 4 parts, and every earlier data line is blank or valid, then
the import fails with the message naming line `i + 2 = N + 1`, and the
project's marker collection is left unchanged. -/
theorem claim_c3_short_line (vt : List Str) (now : Nat) (text : Str)
    (proj : Project) (i : Nat) (l : Str)
    (hl : ((splitLines text).drop 1)[i]? = some l)
    (hblank : isBlank l = false)
    (hshort : (splitChar ',' l).length < 4)
    (hbefore : ∀ j < i, ∀ l', ((splitLines text).drop 1)[j]? = some l' →
      isBlank l' = true ∨ ∃ r, parseLine vt j l' = .ok r) :
    importMarkers vt now text = .error (errNotEnough i) ∧
    handleMarkersFileChange vt now proj text = proj ∧
    errNotEnough i = "Invalid CSV format on line ".data ++ natDigits (i + 2)
      ++ ": Not enough columns.".data := by
  have hp : parseLine vt i l = .error (errNotEnough i) := by
    rw [parseLine, if_pos hshort]
  have herr : importMarkers vt now text = .error (errNotEnough i) := by
    rw [importMarkers]
    rw [processLines_reaches_error vt now _ 0 i l (errNotEnough i) hl hblank
      (by rwa [Nat.zero_add])
      (by intro j hj l' hl'; rw [Nat.zero_add]; exact hbefore j hj l' hl')]
  refine ⟨herr, ?_, rfl⟩
  rw [handleMarkersFileChange, herr]

/-- C3 witness: a data line with three comma-separated parts on the first
data line (`N = 1`) fails naming line 2 and leaves the project alone. -/
theorem claim_c3_short_line_witness :
    ((splitLines "timestamp,context,type,status\n1,2,3".data).drop 1)[0]?
      = some "1,2,3".data ∧
    importMarkers ["Image".data] 0 "timestamp,context,type,status\n1,2,3".data
      = .error (errNotEnough 0) ∧
    handleMarkersFileChange ["Image".data] 0
        ⟨"p1".data, "T".data, "a.mp3".data, 100, DUMMY_MARKERS_2⟩
        "timestamp,context,type,status\n1,2,3".data
      = ⟨"p1".data, "T".data, "a.mp3".data, 100, DUMMY_MARKERS_2⟩ ∧
    errNotEnough 0 = "Invalid CSV format on line 2: Not enough columns.".data := by
  have h := claim_c3_short_line ["Image".data] 0
    "timestamp,context,type,status\n1,2,3".data
    ⟨"p1".data, "T".data, "a.mp3".data, 100, DUMMY_MARKERS_2⟩ 0 "1,2,3".data
    (by with_unfolding_all rfl) (by with_unfolding_all rfl)
    (by with_unfolding_all decide)
    (by intro j hj; omega)
  exact ⟨by with_unfolding_all rfl, h.1, h.2.1, by with_unfolding_all rfl⟩

/-! ## Claim C4 -/

/-- C4 counterexample to the claim as stated: importing an accepted CSV
file into a project of duration 10 produces a marker with timestamp 99,
outside [0, duration] — the import path performs no range check. -/
theorem claim_c4_counterexample :
    (handleMarkersFileChange ["Image".data] 0
        ⟨"p1".data, "T".data, "a.mp3".data, 10, []⟩
        "timestamp,context,type,status\n99,\"x\",Image,To Do".data).markers.map
        Marker.timestamp = [99] ∧
    (⟨"p1".data, "T".data, "a.mp3".data, 10, []⟩ : Project).duration = 10 ∧
    ¬ ((99 : ℚ) ≤ 10) := by
  refine ⟨by with_unfolding_all rfl, rfl, by with_unfolding_all decide⟩

/-- C4 (amended): the add-marker path produces its new marker at the
current playback position, hence within [0, duration] whenever the
playback position is; the CSV import path performs no range validation,
and an accepted file can produce a marker whose timestamp exceeds the
project duration. -/
theorem claim_c4_amended :
    (∀ (assetTypes : List CustomAssetType) (markers : List Marker) (t : ℚ)
        (ctxIn tyIn nid : Str) (dur : ℚ), assetTypes ≠ [] → 0 ≤ t → t ≤ dur →
      ∃ ms, addMarker assetTypes markers t ctxIn tyIn nid = some ms ∧
        ∃ nm ∈ ms, nm.id = nid ∧ nm.timestamp = t ∧
          0 ≤ nm.timestamp ∧ nm.timestamp ≤ dur) ∧
    (∃ ms, importMarkers ["Image".data] 0
        "timestamp,context,type,status\n99,\"x\",Image,To Do".data = .ok ms ∧
      ∃ nm ∈ ms, ¬ (nm.timestamp ≤ 10)) := by
  constructor
  · intro assetTypes markers t ctxIn tyIn nid dur hne h0 hdur
    rw [addMarker, if_neg (by simpa using hne)]
    refine ⟨_, rfl, ⟨nid, t,
      if jsTrim ctxIn = [] then "New marker...".data else jsTrim ctxIn,
      tyIn, .ToDo⟩, ?_, rfl, rfl, h0, hdur⟩
    rw [List.mem_insertionSort]
    simp
  · refine ⟨[⟨importedId 0 0, 99, "x".data, "Image".data, .ToDo⟩],
      by with_unfolding_all rfl,
      ⟨importedId 0 0, 99, "x".data, "Image".data, .ToDo⟩, by simp, ?_⟩
    with_unfolding_all decide

/-- C4 witness: the add-marker half of the amended claim at a concrete
playback position 5 of a duration-10 project. -/
theorem claim_c4_amended_witness :
    DEFAULT_ASSET_TYPES ≠ [] ∧ (0 : ℚ) ≤ 5 ∧ (5 : ℚ) ≤ 10 ∧
    ∃ ms, addMarker DEFAULT_ASSET_TYPES [] 5 "ctx".data "Image".data "n1".data
        = some ms ∧
      ∃ nm ∈ ms, nm.id = "n1".data ∧ nm.timestamp = 5 ∧
        0 ≤ nm.timestamp ∧ nm.timestamp ≤ 10 :=
  ⟨by decide, by norm_num, by norm_num,
   claim_c4_amended.1 DEFAULT_ASSET_TYPES [] 5 "ctx".data "Image".data "n1".data 10
     (by decide) (by norm_num) (by norm_num)⟩

/-! ## Claim C5 -/

theorem jsFloorDiv_natCast (m n : ℕ) :
    jsFloorDiv (m : ℤ) (n : ℤ) = ((m / n : ℕ) : ℤ) := by
  rw [jsFloorDiv]
  exact (Int.ofNat_fdiv m n).symm

theorem jsRem_natCast (m n : ℕ) :
    jsRem (m : ℤ) (n : ℤ) = ((m % n : ℕ) : ℤ) := by
  rw [jsRem, Int.tmod_eq_emod (Int.natCast_nonneg m) (Int.natCast_nonneg n)]
  exact (Int.ofNat_emod m n).symm

theorem intToStr_natCast (n : ℕ) : intToStr (n : ℤ) = natDigits n := by
  rw [intToStr, if_neg (by exact_mod_cast Int.natCast_nonneg n |>.not_lt)]
  simp

/-- C5: for every timestamp `t ≥ 0` the Premiere export's
`secondsToTimecode` at 30 fps is the string `HH;MM;SS;FF` (each component
zero-padded to two digits) where `totalFrames = round(t * 30)`,
`HH = totalFrames / (3600*30)`, `MM = (totalFrames % (3600*30)) / (60*30)`,
`SS = (totalFrames % (60*30)) / 30` and `FF = totalFrames % 30`. -/
theorem claim_c5_timecode (t : ℚ) (ht : 0 ≤ t) :
    secondsToTimecode t = joinSep [';']
      ([(jsRound (t * 30)).toNat / (3600 * 30),
        ((jsRound (t * 30)).toNat % (3600 * 30)) / (60 * 30),
        ((jsRound (t * 30)).toNat % (60 * 30)) / 30,
        (jsRound (t * 30)).toNat % 30].map (fun v => padStart2 (natDigits v))) := by
  have hF : (0 : ℤ) ≤ jsRound (t * 30) := by
    rw [jsRound]
    apply Int.floor_nonneg.2
    linarith
  obtain ⟨n, hn⟩ : ∃ n : ℕ, jsRound (t * 30) = (n : ℤ) :=
    ⟨_, (Int.toNat_of_nonneg hF).symm⟩
  rw [secondsToTimecode]
  rw [hn]
  have hc1 : ((3600 : ℤ) * 30) = ((3600 * 30 : ℕ) : ℤ) := by norm_num
  have hc2 : ((60 : ℤ) * 30) = ((60 * 30 : ℕ) : ℤ) := by norm_num
  have hc3 : ((30 : ℤ)) = ((30 : ℕ) : ℤ) := by norm_num
  rw [hc1, hc2, hc3, jsRem_natCast, jsRem_natCast, jsRem_natCast,
    jsFloorDiv_natCast, jsFloorDiv_natCast, jsFloorDiv_natCast]
  simp only [List.map_cons, List.map_nil, intToStr_natCast, Int.toNat_natCast]

/-- C5 witness: at `t = 63.2`, `totalFrames = round(63.2 * 30) = 1896`
and the produced timecode is `00;01;03;06`, the spec's example. -/
theorem claim_c5_timecode_witness :
    (0 : ℚ) ≤ 632 / 10 ∧
    secondsToTimecode (632 / 10) = joinSep [';']
      ([(jsRound ((632 / 10) * 30)).toNat / (3600 * 30),
        ((jsRound ((632 / 10) * 30)).toNat % (3600 * 30)) / (60 * 30),
        ((jsRound ((632 / 10) * 30)).toNat % (60 * 30)) / 30,
        (jsRound ((632 / 10) * 30)).toNat % 30].map
        (fun v => padStart2 (natDigits v))) ∧
    secondsToTimecode (632 / 10) = "00;01;03;06".data ∧
    jsRound ((632 / 10 : ℚ) * 30) = 1896 :=
  ⟨by norm_num, claim_c5_timecode (632 / 10) (by norm_num),
   by with_unfolding_all rfl, by with_unfolding_all decide⟩

/-! ## Claim C6 -/

theorem qCmp_swap (a b : ℚ) : qCmp b a = -qCmp a b := by
  rcases lt_trichotomy a b with h | h | h
  · simp [qCmp, h, asymm h]
  · subst h
    simp [qCmp, lt_irrefl]
  · simp [qCmp, h, asymm h]

theorem qCmp_le_zero_iff {a b : ℚ} : qCmp a b ≤ 0 ↔ a ≤ b := by
  rcases lt_trichotomy a b with h | h | h
  · simp [qCmp, h, le_of_lt h]
  · subst h
    simp [qCmp, lt_irrefl]
  · simp [qCmp, h, asymm h, not_le.2 h]

theorem strCmp_nonpos_nil (c : Str) : strCmp [] c ≤ 0 := by
  cases c <;> simp [strCmp]

theorem strCmp_swap : ∀ (a b : Str), strCmp b a = -strCmp a b
  | [], [] => by simp [strCmp]
  | [], _ :: _ => by simp [strCmp]
  | _ :: _, [] => by simp [strCmp]
  | x :: xs, y :: ys => by
    rcases lt_trichotomy x y with h | h | h
    · simp [strCmp, h, asymm h]
    · subst h
      simp [strCmp, lt_irrefl, strCmp_swap xs ys]
    · simp [strCmp, h, asymm h]

theorem strCmp_trans : ∀ {a b c : Str},
    strCmp a b ≤ 0 → strCmp b c ≤ 0 → strCmp a c ≤ 0
  | [], _, c, _, _ => strCmp_nonpos_nil c
  | _ :: _, [], _, h1, _ => by simp [strCmp] at h1
  | _ :: _, _ :: _, [], _, h2 => by simp [strCmp] at h2
  | x :: xs, y :: ys, z :: zs, h1, h2 => by
    rcases lt_trichotomy x y with hxy | hxy | hxy
    · rcases lt_trichotomy y z with hyz | hyz | hyz
      · simp [strCmp, lt_trans hxy hyz, asymm (lt_trans hxy hyz)]
      · subst hyz
        simp [strCmp, hxy, asymm hxy]
      · rw [strCmp, if_neg (asymm hyz), if_pos hyz] at h2
        norm_num at h2
    · subst hxy
      rcases lt_trichotomy x z with hyz | hyz | hyz
      · simp [strCmp, hyz, asymm hyz]
      · subst hyz
        rw [strCmp, if_neg (lt_irrefl x), if_neg (lt_irrefl x)] at h1 h2 ⊢
        exact strCmp_trans h1 h2
      · rw [strCmp, if_neg (asymm hyz), if_pos hyz] at h2
        norm_num at h2
    · rw [strCmp, if_neg (asymm hxy), if_pos hxy] at h1
      norm_num at h1

theorem markerCmp_swap (key : SortKey) (a b : Marker) :
    markerCmp key b a = -markerCmp key a b := by
  cases key <;>
    simp only [markerCmp] <;>
    first
      | exact qCmp_swap _ _
      | exact strCmp_swap _ _

theorem markerCmp_le_trans {key : SortKey} {a b c : Marker}
    (h1 : markerCmp key a b ≤ 0) (h2 : markerCmp key b c ≤ 0) :
    markerCmp key a c ≤ 0 := by
  cases key <;> simp only [markerCmp] at * <;>
    first
      | exact qCmp_le_zero_iff.2
          (le_trans (qCmp_le_zero_iff.1 h1) (qCmp_le_zero_iff.1 h2))
      | exact strCmp_trans h1 h2

instance (key : SortKey) (dir : SortDir) : IsTotal Marker (sortRel key dir) := by
  constructor
  intro a b
  have h : ∀ x y : Marker, markerCmp key x y ≤ 0 ∨ markerCmp key y x ≤ 0 := by
    intro x y
    by_cases h : markerCmp key x y ≤ 0
    · exact Or.inl h
    · right
      rw [markerCmp_swap]
      omega
  cases dir with
  | asc => exact h a b
  | desc => rcases h b a with h1 | h1
            · exact Or.inl h1
            · exact Or.inr h1

instance (key : SortKey) (dir : SortDir) : IsTrans Marker (sortRel key dir) := by
  constructor
  intro a b c h1 h2
  cases dir with
  | asc => exact markerCmp_le_trans h1 h2
  | desc => exact markerCmp_le_trans h2 h1

/-- C6: the marker list engine is the pure function of the collection,
the (type, status) filter and the (key, direction) sort that (a) keeps
exactly the markers satisfying the conjunction of the type predicate and
the status predicate and sorts them with the selected comparator, and
(b) applied twice with the same parameters gives the same ordered output
as applied once (the stored collection itself, being an immutable value
here as the source copies before sorting, is untouched). -/
theorem claim_c6_engine (markers : List Marker) (ftype fstatus : Str)
    (key : SortKey) (dir : SortDir) :
    processedMarkers markers ftype fstatus key dir =
      List.insertionSort (sortRel key dir)
        (markers.filter (fun m =>
          (decide (ftype = allStr) || decide (m.type = ftype)) &&
          (decide (fstatus = allStr) || decide (m.status.str = fstatus)))) ∧
    processedMarkers (processedMarkers markers ftype fstatus key dir)
        ftype fstatus key dir
      = processedMarkers markers ftype fstatus key dir := by
  have hfilter : ∀ (L : List Marker),
      (if fstatus = allStr then
          (if ftype = allStr then L else L.filter (fun m => m.type = ftype))
        else
          (if ftype = allStr then L
            else L.filter (fun m => m.type = ftype)).filter
            (fun m => m.status.str = fstatus))
      = L.filter (fun m =>
          (decide (ftype = allStr) || decide (m.type = ftype)) &&
          (decide (fstatus = allStr) || decide (m.status.str = fstatus))) := by
    intro L
    by_cases hft : ftype = allStr <;> by_cases hfs : fstatus = allStr <;>
      simp [hft, hfs, List.filter_filter, Bool.and_comm]
  have hmain : ∀ (L : List Marker), processedMarkers L ftype fstatus key dir =
      List.insertionSort (sortRel key dir)
        (L.filter (fun m =>
          (decide (ftype = allStr) || decide (m.type = ftype)) &&
          (decide (fstatus = allStr) || decide (m.status.str = fstatus)))) := by
    intro L
    rw [processedMarkers]
    rw [← hfilter L]
  refine ⟨hmain markers, ?_⟩
  rw [hmain markers, hmain (List.insertionSort (sortRel key dir) _)]
  have hself : (List.insertionSort (sortRel key dir)
      (markers.filter (fun m =>
        (decide (ftype = allStr) || decide (m.type = ftype)) &&
        (decide (fstatus = allStr) || decide (m.status.str = fstatus))))).filter
      (fun m =>
        (decide (ftype = allStr) || decide (m.type = ftype)) &&
        (decide (fstatus = allStr) || decide (m.status.str = fstatus)))
      = List.insertionSort (sortRel key dir)
        (markers.filter (fun m =>
          (decide (ftype = allStr) || decide (m.type = ftype)) &&
          (decide (fstatus = allStr) || decide (m.status.str = fstatus)))) := by
    apply List.filter_eq_self.2
    intro a ha
    rw [List.mem_insertionSort] at ha
    exact (List.mem_filter.1 ha).2
  rw [hself]
  exact List.Sorted.insertionSort_eq
    (List.sorted_insertionSort (sortRel key dir) _)

/-! ## Claim C7 -/

/-- C7: at startup each storage slot falls back to its built-in default
collection (`DUMMY_PROJECTS`, `DEFAULT_ASSET_TYPES`) when the stored text
is absent or fails to parse (the failure is only logged, nothing is
surfaced), and uses the parsed value when parsing succeeds. `pp`/`pa`
stand for the host `JSON.parse` on each slot's type; the clauses about a
successful parse assume the empty text does not parse, as is true of
`JSON.parse`. -/
theorem claim_c7_startup_fallback
    (pp : Str → Option (List Project))
    (pa : Str → Option (List CustomAssetType)) :
    loadProjects pp none = DUMMY_PROJECTS ∧
    loadAssetTypes pa none = DEFAULT_ASSET_TYPES ∧
    (∀ s, pp s = none → loadProjects pp (some s) = DUMMY_PROJECTS) ∧
    (∀ s, pa s = none → loadAssetTypes pa (some s) = DEFAULT_ASSET_TYPES) ∧
    (pp [] = none → ∀ s v, pp s = some v → loadProjects pp (some s) = v) ∧
    (pa [] = none → ∀ s v, pa s = some v → loadAssetTypes pa (some s) = v) := by
  refine ⟨rfl, rfl, ?_, ?_, ?_, ?_⟩
  · intro s hs
    rw [loadProjects, initSlot]
    split
    · rfl
    · rw [hs]; rfl
  · intro s hs
    rw [loadAssetTypes, initSlot]
    split
    · rfl
    · rw [hs]; rfl
  · intro hempty s v hs
    rw [loadProjects, initSlot]
    rw [if_neg (fun hnil => by rw [hnil, hempty] at hs; exact absurd hs (by simp))]
    rw [hs]; rfl
  · intro hempty s v hs
    rw [loadAssetTypes, initSlot]
    rw [if_neg (fun hnil => by rw [hnil, hempty] at hs; exact absurd hs (by simp))]
    rw [hs]; rfl

/-- C7 witness: a parser that always fails yields the defaults for both
an absent and a present-but-corrupt slot; a parser that succeeds on a
non-empty text installs its value. -/
theorem claim_c7_startup_fallback_witness :
    loadProjects (fun _ => none) none = DUMMY_PROJECTS ∧
    loadProjects (fun _ => none) (some "corrupt".data) = DUMMY_PROJECTS ∧
    loadAssetTypes
        (fun s => if s = [] then none
          else some [⟨"i1".data, "N".data, "bg-red-500".data⟩])
        (some "[]".data)
      = [⟨"i1".data, "N".data, "bg-red-500".data⟩] := by
  refine ⟨(claim_c7_startup_fallback (fun _ => none) (fun _ => none)).1,
    (claim_c7_startup_fallback (fun _ => none) (fun _ => none)).2.2.1 _ rfl,
    (claim_c7_startup_fallback (fun _ => none)
      (fun s => if s = [] then none
        else some [⟨"i1".data, "N".data, "bg-red-500".data⟩])).2.2.2.2.2
      (by decide) _ _ (by decide)⟩

/-! ## Claim C8 -/

/-- C8: creating a category (`handleAddType`) or renaming one
(`handleUpdateType` on the name field) whose trimmed name equals,
case-insensitively, another existing category's name is rejected with a
message and leaves the collection unchanged (`none`); consequently, when
category names are case-insensitively unique before an add or a rename
(identifiers being unique for the rename), they remain unique after it. -/
theorem claim_c8_unique_names :
    (∀ (types : List CustomAssetType) (name color nid : Str),
      ((∃ t ∈ types, lcStr t.name = lcStr (jsTrim name)) →
        handleAddType types name color nid = none) ∧
      (∀ l', handleAddType types name color nid = some l' →
        namesCIUnique types → namesCIUnique l')) ∧
    (∀ (types : List CustomAssetType) (uid value : Str),
      ((∃ t ∈ types, t.id ≠ uid ∧ lcStr t.name = lcStr (jsTrim value)) →
        handleUpdateTypeName types uid value = none) ∧
      ((types.map (fun t => t.id)).Nodup →
        ∀ l', handleUpdateTypeName types uid value = some l' →
        namesCIUnique types → namesCIUnique l')) := by
  constructor
  · intro types name color nid
    constructor
    · intro hcol
      rw [handleAddType]
      split
      · rfl
      · rw [if_pos (by simpa using hcol)]
    · intro l' hl' hciu
      rw [handleAddType] at hl'
      split at hl'
      · simp at hl'
      · split at hl'
        · simp at hl'
        · next hno =>
          simp only [Option.some_inj] at hl'
          subst hl'
          have hall : ∀ t ∈ types, ¬ lcStr t.name = lcStr (jsTrim name) := by
            simpa using hno
          rw [namesCIUnique, List.map_append]
          rw [List.nodup_append]
          refine ⟨hciu, List.nodup_singleton _, ?_⟩
          intro x hx hx2
          simp only [List.map_cons, List.map_nil, List.mem_singleton] at hx2
          obtain ⟨t, ht, hteq⟩ := List.mem_map.1 hx
          exact hall t ht (by rw [hteq, hx2])
  · intro types uid value
    constructor
    · intro hcol
      rw [handleUpdateTypeName]
      split
      · rfl
      · rw [if_pos (by simpa using hcol)]
    · intro hids l' hl' hciu
      rw [handleUpdateTypeName] at hl'
      split at hl'
      · simp at hl'
      · split at hl'
        · simp at hl'
        · next hno =>
          simp only [Option.some_inj] at hl'
          subst hl'
          have hother : ∀ t ∈ types, ¬ t.id = uid →
              ¬ lcStr t.name = lcStr (jsTrim value) := by
            simpa using hno
          have hidpair : types.Pairwise (fun a b => a.id ≠ b.id) := by
            rw [List.Nodup, List.pairwise_map] at hids
            exact hids
          have hnamepair : types.Pairwise
              (fun a b => lcStr a.name ≠ lcStr b.name) := by
            rw [namesCIUnique, List.Nodup, List.pairwise_map] at hciu
            exact hciu
          have hboth := hidpair.and hnamepair
          rw [namesCIUnique, List.map_map, List.Nodup, List.pairwise_map]
          refine hboth.imp_of_mem ?_
          intro a b ha hb hab
          simp only [Function.comp]
          by_cases haid : a.id = uid
          · have hbid : ¬ b.id = uid := by
              rw [← haid]
              exact (hab.1).symm
            rw [if_pos haid, if_neg hbid]
            exact fun hc => hother b hb hbid hc.symm
          · rw [if_neg haid]
            by_cases hbid : b.id = uid
            · rw [if_pos hbid]
              exact fun hc => hother a ha haid hc
            · rw [if_neg hbid]
              exact hab.2

/-- C8 witness: the spec's example — adding a category named `image`
when `Image` exists is rejected. -/
theorem claim_c8_unique_names_witness :
    (∃ t ∈ DEFAULT_ASSET_TYPES, lcStr t.name = lcStr (jsTrim "image".data)) ∧
    handleAddType DEFAULT_ASSET_TYPES "image".data "bg-red-500".data "t9".data
      = none :=
  ⟨by decide,
   (claim_c8_unique_names.1 DEFAULT_ASSET_TYPES "image".data
      "bg-red-500".data "t9".data).1 (by decide)⟩

/-! ## Claim C9 -/

/-- C9: the settings-file import path does not enforce category-name
uniqueness — a concrete array whose elements all have non-empty id, name
and color but two case-insensitively equal names is accepted by
`handleImportFile` and installed by `handleUpdateAssetTypes`, violating
the case-insensitive uniqueness invariant. -/
theorem claim_c9_import_no_uniqueness :
    handleImportFile [⟨"a".data, "Image".data, "bg-red-500".data⟩,
        ⟨"b".data, "image".data, "bg-blue-500".data⟩]
      = some [⟨"a".data, "Image".data, "bg-red-500".data⟩,
        ⟨"b".data, "image".data, "bg-blue-500".data⟩] ∧
    handleUpdateAssetTypes DEFAULT_ASSET_TYPES
        [⟨"a".data, "Image".data, "bg-red-500".data⟩,
         ⟨"b".data, "image".data, "bg-blue-500".data⟩]
      = [⟨"a".data, "Image".data, "bg-red-500".data⟩,
         ⟨"b".data, "image".data, "bg-blue-500".data⟩] ∧
    ¬ namesCIUnique [⟨"a".data, "Image".data, "bg-red-500".data⟩,
        ⟨"b".data, "image".data, "bg-blue-500".data⟩] :=
  ⟨by decide, by decide, by decide⟩

/-! ## Claim C10 -/

/-- C10: with at least one asset type defined, `addMarker` replaces the
collection by the timestamp-sorted whole of the old markers plus one new
marker whose status is To Do, timestamp is the current playback time and
context is the trimmed input or the `New marker...` placeholder; with no
asset type defined it shows a message and changes nothing. -/
theorem claim_c10_addMarker (assetTypes : List CustomAssetType)
    (markers : List Marker) (t : ℚ) (ctxIn tyIn nid : Str) :
    (assetTypes = [] → addMarker assetTypes markers t ctxIn tyIn nid = none) ∧
    (assetTypes ≠ [] →
      addMarker assetTypes markers t ctxIn tyIn nid
        = some (List.insertionSort tsLe (markers ++
            [⟨nid, t,
              (if jsTrim ctxIn = [] then "New marker...".data else jsTrim ctxIn),
              tyIn, .ToDo⟩])) ∧
      List.Pairwise tsLe (List.insertionSort tsLe (markers ++
          [⟨nid, t,
            (if jsTrim ctxIn = [] then "New marker...".data else jsTrim ctxIn),
            tyIn, .ToDo⟩])) ∧
      (⟨nid, t,
         (if jsTrim ctxIn = [] then "New marker...".data else jsTrim ctxIn),
         tyIn, .ToDo⟩ : Marker) ∈ List.insertionSort tsLe (markers ++
          [⟨nid, t,
            (if jsTrim ctxIn = [] then "New marker...".data else jsTrim ctxIn),
            tyIn, .ToDo⟩]) ∧
      ∀ m ∈ markers, m ∈ List.insertionSort tsLe (markers ++
          [⟨nid, t,
            (if jsTrim ctxIn = [] then "New marker...".data else jsTrim ctxIn),
            tyIn, .ToDo⟩])) := by
  constructor
  · intro h
    rw [addMarker, if_pos (by simp [h])]
  · intro h
    refine ⟨?_, List.sorted_insertionSort tsLe _, ?_, ?_⟩
    · rw [addMarker, if_neg (by simpa using h)]
    · rw [List.mem_insertionSort]
      simp
    · intro m hm
      rw [List.mem_insertionSort]
      simp [hm]

/-- C10 witness: both branches at concrete inputs — an empty category
collection rejects the marker, and the default categories accept one at
playback time 20 with a trimmed context. -/
theorem claim_c10_addMarker_witness :
    addMarker [] DUMMY_MARKERS_2 20 "  hi ".data "Image".data "n1".data = none ∧
    addMarker DEFAULT_ASSET_TYPES DUMMY_MARKERS_2 20 "  hi ".data "Image".data
        "n1".data
      = some (List.insertionSort tsLe (DUMMY_MARKERS_2 ++
          [⟨"n1".data, 20,
            (if jsTrim "  hi ".data = [] then "New marker...".data
              else jsTrim "  hi ".data),
            "Image".data, .ToDo⟩])) :=
  ⟨(claim_c10_addMarker [] DUMMY_MARKERS_2 20 "  hi ".data "Image".data
      "n1".data).1 rfl,
   ((claim_c10_addMarker DEFAULT_ASSET_TYPES DUMMY_MARKERS_2 20 "  hi ".data
      "Image".data "n1".data).2 (by decide)).1⟩

end AudioMarker
